import Mathlib

/-! # Telnet server: connection table, control-protocol filter and line assembly

A shallow embedding of `telnet_server.h`, `telnet_server.c`, `telnet_proc.c` and
`telnet_recv.c`.

Conventions of the embedding:

* a byte is a `Nat` (the values `0 .. 255`), a C `int` / `time_t` is an `Int`;
* a C array is a `List` of its elements, a C string is the bytes before the first `0`;
* a pointer slot `telnet_client_t *` is an `Option telnet_client_t` (`none` is `NULL`);
* everything a function does to the outside world is returned as a list of `Event`s, in
  program order: `send(fd, data)` and `close(fd)`.  Diagnostics written with `printf` /
  `perror` are not part of the model;
* every value the environment supplies is a parameter: the clock (`now`), the outcome of
  `recv`, `accept`, `fcntl` and `malloc`, and the prior content of uninitialised stack arrays;
* where the C code would read or write outside an array of `telnets_command_proc`, the
  embedded function returns `none`; the receive loop, which calls it, goes on as the real
  program does when such a call returns, and takes what the call did from the environment
  (`Stack.overrun`).
-/

namespace Telnet

/-! ## Constants of `telnet_server.h` -/

def TELNET_MAX_CLIENTS : Nat := 5
def TELNET_BUFFER_SIZE : Nat := 1024
def TELNET_IDLE_TIMEOUT : Int := 600

def TELNET_IAC : Nat := 255
def TELNET_DONT : Nat := 254
def TELNET_DO : Nat := 253
def TELNET_WONT : Nat := 252
def TELNET_WILL : Nat := 251
def TELNET_SB : Nat := 250
def TELNET_SE : Nat := 240

/-- The bytes of a string literal of the source. -/
def bytes (s : String) : List Nat := s.toList.map Char.toNat

/-! ## Data model -/

/-- The part of `struct sockaddr_in` the program reads: the four address octets and the two
octets of the port, both in network byte order. -/
structure sockaddr_in where
  sin_addr : Nat × Nat × Nat × Nat
  sin_port : Nat × Nat
deriving DecidableEq, Repr

/-- The record `telnet_client_t`. -/
structure telnet_client_t where
  sockfd : Int
  addr : sockaddr_in
  buffer : List Nat
  buffer_len : Int
  last_active : Int
  authenticated : Int
  username : List Nat
  telnet_state : Int
  closed : Int
deriving DecidableEq, Repr

/-- The record `telnet_server_t` (its `read_fds` member is never read or written). -/
structure telnet_server_t where
  listen_sockfd : Int
  port : Int
  clients : List (Option telnet_client_t)
  max_clients : Int
  running : Int
  max_fd : Int
deriving DecidableEq, Repr

/-- An effect on the outside world. -/
inductive Event where
  | send (fd : Int) (data : List Nat)
  | close (fd : Int)
deriving DecidableEq, Repr

/-- The bytes written to descriptor `fd` by a run of events, in order. -/
def sent_to (fd : Int) : List Event → List Nat
  | [] => []
  | Event.send fd1 data :: rest => if fd1 = fd then data ++ sent_to fd rest else sent_to fd rest
  | Event.close _ :: rest => sent_to fd rest

/-- The pointer stored in `server->clients[i]`. -/
def client_at (server : telnet_server_t) (i : Int) : Option telnet_client_t :=
  if 0 ≤ i then (server.clients.getD i.toNat none) else none

/-- The line typed so far: `buffer[0 .. buffer_len)`. -/
def line_of (client : telnet_client_t) : List Nat :=
  client.buffer.take client.buffer_len.toNat

/-! ## `telnets_handle_commands`: the control-protocol filter -/

/-- One iteration of the `switch (client->telnet_state)` in `telnets_handle_commands`. -/
def filter_step (state : Int) (c : Nat) : Int :=
  if state = 0 then
    if c = TELNET_IAC then 1 else state
  else if state = 1 then
    if c = TELNET_WILL ∨ c = TELNET_WONT ∨ c = TELNET_DO ∨ c = TELNET_DONT then 2
    else if c = TELNET_SB then 3
    else if c = TELNET_IAC then 0
    else 0
  else if state = 2 then 0
  else if state = 3 then
    if c = TELNET_IAC then 4 else state
  else if state = 4 then
    if c = TELNET_SE then 0
    else if c = TELNET_IAC then 3
    else 3
  else state

/-- The function `telnets_handle_commands(client, data, len)` with `data[0 .. len)` given as a list. -/
def telnets_handle_commands (client : telnet_client_t) : List Nat → telnet_client_t
  | [] => client
  | c :: rest =>
    telnets_handle_commands { client with telnet_state := filter_step client.telnet_state c } rest

/-! ## `telnets_command_proc`: the command dispatcher

The program never calls `setlocale`, so the `<ctype.h>` classifiers are those of the "C"
locale. -/

def isspace (c : Nat) : Bool := c = 32 ∨ (9 ≤ c ∧ c ≤ 13)

def isprint (c : Nat) : Bool := 32 ≤ c ∧ c ≤ 126

def tolower (c : Nat) : Nat := if 65 ≤ c ∧ c ≤ 90 then c + 32 else c

/-- Reading a C string out of an array: the bytes before the first `0`; `none` when the array
holds no terminator (the read would leave the array). -/
def cstr (a : List Nat) : Option (List Nat) :=
  if 0 ∈ a then some (a.takeWhile (fun c => c ≠ 0)) else none

/-- Writing the string `s` and its terminator at the start of an array of `cap` bytes whose
content is `a`; `none` when `s` and the terminator do not fit. -/
def store (cap : Nat) (a : List Nat) (s : List Nat) : Option (List Nat) :=
  if s.length + 1 ≤ cap then some (s ++ 0 :: a.drop (s.length + 1)) else none

/-- What `snprintf(response, size, ...)` leaves in `response`: at most `size - 1` bytes. -/
def snprintf (size : Nat) (s : List Nat) : List Nat := s.take (size - 1)

/-- The decimal digits printed by `%d` / `%ld`. -/
def fmt_int (z : Int) : List Nat :=
  if z < 0 then 45 :: (Nat.toDigits 10 (-z).toNat).map Char.toNat
  else (Nat.toDigits 10 z.toNat).map Char.toNat

/-- The text of `inet_ntoa(addr.sin_addr)`. -/
def inet_ntoa (a : sockaddr_in) : List Nat :=
  fmt_int a.sin_addr.1 ++ 46 :: fmt_int a.sin_addr.2.1 ++ 46 :: fmt_int a.sin_addr.2.2.1
    ++ 46 :: fmt_int a.sin_addr.2.2.2

/-- The value of `ntohs(addr.sin_port)`. -/
def ntohs (p : Nat × Nat) : Int := p.1 * 256 + p.2

/-- An overrun that does no harm: the bytes of the first word that do not fit into `cmd` land
in memory behind the array that nothing else uses and are read back from there, so that the
line is answered as an unknown command and the close flag is left alone. -/
def spill_reply (command : List Nat) : Bool × List (List Nat) :=
  (false,
    [snprintf 256 (bytes "\r\nUnknown command: " ++
        ((command.dropWhile isspace).takeWhile (fun c => !isspace c)).map tolower ++
        bytes "\r\n"),
      bytes "Type 'help' for available commands.\r\n"])

/-- What the environment supplies to a call of `telnets_command_proc`: the content, on entry,
of its uninitialised local arrays `char cmd[128]` and `char arg[TELNET_BUFFER_SIZE]`, and
what a call does that reads or writes outside these arrays.  The source does not determine
the latter, it depends on what lies behind the arrays: `overrun command` tells, for such a
call on the line `command`, whether it sets the close flag and which data it sends, one
entry for each `send`. -/
structure Stack where
  cmd : List Nat
  arg : List Nat
  overrun : List Nat → Bool × List (List Nat) := spill_reply

/-- The call `sscanf(command, "%s %[^\n]", cmd, arg)`: the return value and the two arrays
afterwards.  `%s` skips white space and stores the following run of non-space bytes; when the
input ends before that run, the call returns `EOF` (-1) and stores nothing.  The blank in the
format skips white space; `%[^\n]` stores the following non-empty run of bytes other than
line feed, and when there is none the call returns 1. -/
def sscanf_cmd_arg (command : List Nat) (stack : Stack) : Option (Int × List Nat × List Nat) :=
  let s1 := command.dropWhile isspace
  if s1 = [] then some (-1, stack.cmd, stack.arg)
  else
    let token := s1.takeWhile (fun c => !isspace c)
    let s2 := (s1.dropWhile (fun c => !isspace c)).dropWhile isspace
    match store 128 stack.cmd token with
    | none => none
    | some cmd1 =>
      let a := s2.takeWhile (fun c => c ≠ 10)
      if a = [] then some (1, cmd1, stack.arg)
      else
        match store TELNET_BUFFER_SIZE stack.arg a with
        | none => none
        | some arg1 => some (2, cmd1, arg1)

def help_msg : List Nat :=
  bytes ("\r\nAvailable commands:\r\n" ++
    "  help     - Show this help message\r\n" ++
    "  time     - Show current time\r\n" ++
    "  echo <msg> - Echo back the message\r\n" ++
    "  clear    - Clear the screen\r\n" ++
    "  quit     - Disconnect\r\n" ++
    "  clients  - Show connected clients\r\n" ++
    "  stats    - Show server statistics\r\n")

def usage_msg : List Nat := bytes "\r\nUsage: echo <message>\r\n"

def clear_screen : List Nat := bytes "\x1b[2J\x1b[H"

def bye_msg : List Nat := bytes "\r\nGoodbye!\r\n"

def clients_msg : List Nat := bytes "\r\nClient list functionality not implemented yet.\r\n"

def help_hint : List Nat := bytes "Type 'help' for available commands.\r\n"

/-- The function `telnets_command_proc(client, command)`.  `now` is the value of `time(NULL)`,
`time_str` the text `strftime` produces for it, `stack` the prior content of the local
arrays.  The result is the record afterwards and the `send` calls made. -/
def telnets_command_proc (now : Int) (time_str : List Nat) (stack : Stack)
    (client : telnet_client_t) (command : List Nat) : Option (telnet_client_t × List Event) :=
  match sscanf_cmd_arg command stack with
  | none => none
  | some (parsed, cmd0, arg) =>
    if parsed = 0 then some (client, [])
    else
      -- for (int i = 0; cmd[i]; i++) cmd[i] = tolower(cmd[i]);
      match cstr cmd0 with
      | none => none
      | some word =>
        let cmd := word.map tolower
        if cmd = bytes "help" then
          some (client, [Event.send client.sockfd help_msg])
        else if cmd = bytes "time" then
          some (client, [Event.send client.sockfd
            (snprintf 128 (bytes "\r\nCurrent time: " ++ time_str ++ bytes "\r\n"))])
        else if cmd = bytes "echo" then
          match cstr arg with
          | none => none
          | some a =>
            if a.length > 0 then
              some (client, [Event.send client.sockfd
                (snprintf (TELNET_BUFFER_SIZE + 64) (bytes "\r\nEcho: " ++ a ++ bytes "\r\n"))])
            else
              some (client, [Event.send client.sockfd usage_msg])
        else if cmd = bytes "clear" then
          some (client, [Event.send client.sockfd clear_screen])
        else if cmd = bytes "quit" ∨ cmd = bytes "exit" then
          some ({ client with closed := 1 }, [Event.send client.sockfd bye_msg])
        else if cmd = bytes "clients" then
          some (client, [Event.send client.sockfd clients_msg])
        else if cmd = bytes "stats" then
          let uptime := now - client.last_active
          some (client, [Event.send client.sockfd
            (snprintf 256 (bytes "\r\nClient statistics:\r\n" ++
              bytes "  IP: " ++ inet_ntoa client.addr ++ bytes "\r\n" ++
              bytes "  Port: " ++ fmt_int (ntohs client.addr.sin_port) ++ bytes "\r\n" ++
              bytes "  Connected for: " ++ fmt_int uptime ++ bytes " seconds\r\n"))])
        else
          some (client, [Event.send client.sockfd
              (snprintf 256 (bytes "\r\nUnknown command: " ++ cmd ++ bytes "\r\n")),
            Event.send client.sockfd help_hint])

/-- The call `telnets_command_proc(client, command)` as its caller sees it.  A call that stays
inside its local arrays does what `telnets_command_proc` says.  A call that leaves them
(`sscanf` stores a first word of 128 bytes or more into `cmd[128]`, or a string is read out
of an array that holds no terminator) is taken to return to its caller and to touch nothing
but what the function touches, the close flag and the descriptor of the client; what it does
to these is the `overrun` of the environment. -/
def command_proc_call (now : Int) (time_str : List Nat) (stack : Stack)
    (client : telnet_client_t) (command : List Nat) : telnet_client_t × List Event :=
  match telnets_command_proc now time_str stack client command with
  | some r => r
  | none =>
    let o := stack.overrun command
    ({ client with closed := if o.1 then 1 else client.closed },
      o.2.map (fun data => Event.send client.sockfd data))

/-! ## The slot table (`telnet_server.c`, `telnet_proc.c`)

A loop `for (int i = 0; i < server->max_clients; i++)` runs over the indices
`List.range server.max_clients.toNat`. -/

def welcome_msg : List Nat :=
  bytes ("\r\n" ++
    "========================================\r\n" ++
    "   Welcome to WK Telnet Server\r\n" ++
    "========================================\r\n" ++
    "\r\n" ++
    "Available commands:\r\n" ++
    "  help     - Show this help message\r\n" ++
    "  time     - Show current time\r\n" ++
    "  echo <msg> - Echo back the message\r\n" ++
    "  clear    - Clear the screen\r\n" ++
    "  quit     - Disconnect\r\n" ++
    "\r\n")

def prompt_msg : List Nat := bytes "\rwktx:##>"

def timeout_msg : List Nat := bytes "\r\nConnection timed out due to inactivity.\r\n"

/-- The function `telnets_welcome(sockfd)`. -/
def telnets_welcome (sockfd : Int) : List Event := [Event.send sockfd welcome_msg]

/-- The function `telnets_send_prompt(sockfd)`. -/
def telnets_send_prompt (sockfd : Int) : List Event := [Event.send sockfd prompt_msg]

/-- The loop of `telnets_find_available_slot` over the indices still to visit. -/
def find_available_from (server : telnet_server_t) : List Nat → Int
  | [] => -1
  | i :: rest =>
    if client_at server i = none then (i : Int) else find_available_from server rest

/-- The function `telnets_find_available_slot(server)`. -/
def telnets_find_available_slot (server : telnet_server_t) : Int :=
  find_available_from server (List.range server.max_clients.toNat)

/-- The function `is_telnet_client_timeout(client)`, `now` being the value of
`get_current_time()`. -/
def is_telnet_client_timeout (now : Int) (client : Option telnet_client_t) : Bool :=
  match client with
  | none => true
  | some c => decide (now - c.last_active ≥ TELNET_IDLE_TIMEOUT)

/-- The function `telnets_add_client(server, sockfd, addr)`: the return value and the server
afterwards.  `now` is the value of `get_current_time()`, `malloc_ok` tells whether `malloc`
returned a record. -/
def telnets_add_client (now : Int) (malloc_ok : Bool) (server : telnet_server_t)
    (sockfd : Int) (addr : sockaddr_in) : Int × telnet_server_t :=
  let index := telnets_find_available_slot server
  if index < 0 then (-1, server)
  else if !malloc_ok then (-1, server)
  else
    let client : telnet_client_t :=
      { sockfd := sockfd
        addr := addr
        buffer := List.replicate TELNET_BUFFER_SIZE 0
        buffer_len := 0
        last_active := now
        authenticated := 0
        username := List.replicate 32 0
        telnet_state := 0
        closed := 0 }
    let server1 := { server with clients := server.clients.set index.toNat (some client) }
    if sockfd > server1.max_fd then (0, { server1 with max_fd := sockfd }) else (0, server1)

/-- The function `telnets_remove_client(server, client_index)`. -/
def telnets_remove_client (server : telnet_server_t) (client_index : Int) :
    telnet_server_t × List Event :=
  if client_index < 0 ∨ client_index ≥ server.max_clients then (server, [])
  else
    match client_at server client_index with
    | none => (server, [])
    | some client =>
      ({ server with clients := server.clients.set client_index.toNat none },
        [Event.close client.sockfd])

/-- The loop of `telnets_cleanup_clients` over the indices still to visit; the events made so
far are carried along. -/
def cleanup_from (now : Int) : List Nat → telnet_server_t × List Event →
    telnet_server_t × List Event
  | [], st => st
  | i :: rest, (server, events) =>
    match client_at server i with
    | none => cleanup_from now rest (server, events)
    | some client =>
      if is_telnet_client_timeout now (some client) then
        let r := telnets_remove_client server i
        cleanup_from now rest (r.1, events ++ Event.send client.sockfd timeout_msg :: r.2)
      else cleanup_from now rest (server, events)

/-- The function `telnets_cleanup_clients(server)`; every call of `get_current_time()` made
during the scan returns `now`. -/
def telnets_cleanup_clients (now : Int) (server : telnet_server_t) :
    telnet_server_t × List Event :=
  cleanup_from now (List.range server.max_clients.toNat) (server, [])

/-- The function `telnets_handle_new_connection(server)`.  `new_sockfd` and `client_addr` are
what `accept` returned, `nonblock_ok` tells whether `set_tcp_nonblocking` succeeded. -/
def telnets_handle_new_connection (now : Int) (malloc_ok nonblock_ok : Bool)
    (server : telnet_server_t) (new_sockfd : Int) (client_addr : sockaddr_in) :
    telnet_server_t × List Event :=
  if new_sockfd < 0 then (server, [])
  else if !nonblock_ok then (server, [Event.close new_sockfd])
  else
    let client_index := telnets_find_available_slot server
    if client_index < 0 then (server, [Event.close new_sockfd])
    else
      let r := telnets_add_client now malloc_ok server new_sockfd client_addr
      if r.1 < 0 then (server, [Event.close new_sockfd])
      else (r.2, telnets_welcome new_sockfd ++ telnets_send_prompt new_sockfd)

/-! ## `telnets_recv_data_proc`: receive handling -/

/-- The outcome of `recv(client->sockfd, buffer, sizeof(buffer) - 1, 0)`: `failed` is the
return value -1, `received data` the return value `data.length` with `data` in `buffer`. -/
inductive Recv where
  | failed
  | received (data : List Nat)
deriving DecidableEq, Repr

/-- The variable `bytes_received`. -/
def bytes_received : Recv → Int
  | Recv.failed => -1
  | Recv.received data => data.length

/-- The state of the loop `for (int i = 0; i < bytes_received; i++)` of
`telnets_recv_data_proc`: the record, the events made so far and, as a ghost, the indices
`i` whose byte got past the test `client->telnet_state != 0`, in order. -/
structure LoopState where
  client : telnet_client_t
  events : List Event
  handed : List Nat
deriving DecidableEq, Repr

/-- The body of `if (c == '\r' || c == '\n')` in the loop of `telnets_recv_data_proc`, up to
the test of the close flag: a non-empty line is terminated, answered with CR LF, dispatched
and cleared; an empty line gets the prompt. -/
def on_terminator (now : Int) (time_str : List Nat) (stk : Stack) (st : LoopState) :
    Option LoopState :=
  let client := st.client
  if client.buffer_len > 0 then
    let client1 := { client with buffer := client.buffer.set client.buffer_len.toNat 0 }
    match cstr client1.buffer with
    | none => none
    | some command =>
      let r := command_proc_call now time_str stk client1 command
      some { client := { r.1 with
                          buffer := List.replicate TELNET_BUFFER_SIZE 0
                          buffer_len := 0 }
             events := st.events ++ Event.send client.sockfd (bytes "\r\n") :: r.2
             handed := st.handed }
  else
    some { client := client
           events := st.events ++ telnets_send_prompt client.sockfd
           handed := st.handed }

/-- The loop over `buffer[i ..]` of `telnets_recv_data_proc`.  The Boolean of the result is
true when the loop was left through `telnets_remove_client(server, client_index); return;`.
`stack i` is what the environment supplies to the dispatcher when it is called for the
terminator at index `i`. -/
def recv_loop (now : Int) (time_str : List Nat) (stack : Nat → Stack) :
    Nat → List Nat → LoopState → Option (LoopState × Bool)
  | _, [], st => some (st, false)
  | i, c :: rest, st =>
    if st.client.telnet_state ≠ 0 then recv_loop now time_str stack (i + 1) rest st
    else
      let client := st.client
      let handed := st.handed ++ [i]
      if c = 127 ∨ c = 8 then
        if client.buffer_len > 0 then
          recv_loop now time_str stack (i + 1) rest
            { client := { client with buffer_len := client.buffer_len - 1 }
              events := st.events ++ [Event.send client.sockfd (bytes "\x08 \x08")]
              handed := handed }
        else recv_loop now time_str stack (i + 1) rest { st with handed := handed }
      else if c = 13 ∨ c = 10 then
        match on_terminator now time_str (stack i) { st with handed := handed } with
        | none => none
        | some st1 =>
          if st1.client.closed ≠ 0 then some (st1, true)
          else recv_loop now time_str stack (i + 1) rest st1
      else if client.buffer_len < (TELNET_BUFFER_SIZE : Int) - 1 ∧ isprint c then
        recv_loop now time_str stack (i + 1) rest
          { client := { client with
                        buffer := client.buffer.set client.buffer_len.toNat c
                        buffer_len := client.buffer_len + 1 }
            events := st.events ++ [Event.send client.sockfd [c]]
            handed := handed }
      else recv_loop now time_str stack (i + 1) rest { st with handed := handed }

/-- What `telnets_recv_data_proc` returns to its caller in the model: the server afterwards,
the events made, and the ghost list of byte indices handed to the line rules. -/
structure RecvResult where
  server : telnet_server_t
  events : List Event
  handed : List Nat
deriving DecidableEq, Repr

/-- The function `telnets_recv_data_proc(server, client_index)`, given the outcome `rx` of its
`recv` call.  The record lives on the heap, so its final value is what slot `client_index`
holds afterwards unless the slot was released. -/
def telnets_recv_data_proc (now : Int) (time_str : List Nat) (stack : Nat → Stack)
    (server : telnet_server_t) (client_index : Int) (rx : Recv) : Option RecvResult :=
  match client_at server client_index with
  | none => some { server := server, events := [], handed := [] }
  | some client =>
    if bytes_received rx ≤ 0 then
      let r := telnets_remove_client server client_index
      some { server := r.1, events := r.2, handed := [] }
    else
      match rx with
      | Recv.failed => none
      | Recv.received data =>
        let client1 := { client with last_active := now }
        let client2 := telnets_handle_commands client1 data
        match recv_loop now time_str stack 0 data
            { client := client2, events := [], handed := [] } with
        | none => none
        | some (st, released) =>
          let server1 :=
            { server with clients := server.clients.set client_index.toNat (some st.client) }
          if released then
            let r := telnets_remove_client server1 client_index
            some { server := r.1, events := st.events ++ r.2, handed := st.handed }
          else some { server := server1, events := st.events, handed := st.handed }

/-! ## Auxiliary definitions used in the statements -/

/-- The filter state after feeding `data` from `state`: `filter_step` folded over the bytes. -/
def filter_run (state : Int) : List Nat → Int
  | [] => state
  | c :: rest => filter_run (filter_step state c) rest

/-- The transition table of the specification (§4.2, with the byte values of §6), state by
state: 0 `NORMAL`, 1 `GOT_COMMAND_LEAD`, 2 `AWAIT_OPTION`, 3 `SUBNEGOTIATION`,
4 `SUBNEG_GOT_LEAD`. -/
def spec_transition (s : Int) (c : Nat) : Int :=
  if s = 0 then (if c = 0xFF then 1 else 0)
  else if s = 1 then
    (if c = 0xFB ∨ c = 0xFC ∨ c = 0xFD ∨ c = 0xFE then 2 else if c = 0xFA then 3 else 0)
  else if s = 2 then 0
  else if s = 3 then (if c = 0xFF then 4 else 3)
  else (if c = 0xF0 then 0 else 3)

/-- A server as `telnet_server_init` lays it out: five slots, `max_clients` five. -/
def server_ok (server : telnet_server_t) : Prop :=
  server.max_clients = TELNET_MAX_CLIENTS ∧ server.clients.length = TELNET_MAX_CLIENTS

/-- A server with the five slots empty, listening on descriptor 3. -/
def empty_server : telnet_server_t :=
  { listen_sockfd := 3, port := 8899, clients := List.replicate 5 none, max_clients := 5,
    running := 1, max_fd := 3 }

/-- An address used in the examples: 10.0.0.7, port 5000. -/
def peer : sockaddr_in := { sin_addr := (10, 0, 0, 7), sin_port := (19, 136) }

/-- The server after one client (descriptor 4) was added at time 100. -/
def one_client_server : telnet_server_t := (telnets_add_client 100 true empty_server 4 peer).2

/-- A stack whose arrays hold zeros. -/
def zero_stack : Nat → Stack := fun _ => { cmd := List.replicate 128 0, arg := List.replicate 1024 0 }

/-- Appending one byte to the line: `client->buffer[client->buffer_len++] = c`. -/
def push_byte (client : telnet_client_t) (c : Nat) : telnet_client_t :=
  { client with
    buffer := client.buffer.set client.buffer_len.toNat c
    buffer_len := client.buffer_len + 1 }

/-- The record `telnets_add_client` stores. -/
def new_client (now : Int) (sockfd : Int) (addr : sockaddr_in) : telnet_client_t :=
  { sockfd := sockfd, addr := addr, buffer := List.replicate TELNET_BUFFER_SIZE 0,
    buffer_len := 0, last_active := now, authenticated := 0,
    username := List.replicate 32 0, telnet_state := 0, closed := 0 }

/-- What a client observes of slot `i` after a receive: the line typed so far, `buffer_len`,
the filter state, the close flag, and the bytes written to descriptor `fd`. -/
def observe (fd : Int) (i : Int) (r : RecvResult) :
    Option (List Nat × Int × Int × Int) × List Nat :=
  ((client_at r.server i).map
      (fun c => (line_of c, c.buffer_len, c.telnet_state, c.closed)),
    sent_to fd r.events)

/-- Consecutive calls of `telnets_add_client`, one per request `(now, sockfd, addr)`, with no
release in between and `malloc` succeeding: the return values and the server afterwards. -/
def add_clients (server : telnet_server_t) :
    List (Int × Int × sockaddr_in) → List Int × telnet_server_t
  | [] => ([], server)
  | q :: rest =>
    let r := telnets_add_client q.1 true server q.2.1 q.2.2
    let rs := add_clients r.2 rest
    (r.1 :: rs.1, rs.2)

/-- What the idle reaper is expected to leave in a slot that held `o`: nothing when the
record has been idle for 600 seconds or more, the record itself otherwise. -/
def reaped (now : Int) (o : Option telnet_client_t) : Option telnet_client_t :=
  match o with
  | none => none
  | some c => if now - c.last_active ≥ 600 then none else some c

/-- The events expected of the idle reaper for the slots `is` of `server`, slot by slot: for a
record idle for 600 seconds or more, the timeout notice and then the `close`. -/
def reap_events (now : Int) (server : telnet_server_t) : List Nat → List Event
  | [] => []
  | i :: rest =>
    (match client_at server i with
      | none => []
      | some c =>
        if now - c.last_active ≥ 600 then
          [Event.send c.sockfd timeout_msg, Event.close c.sockfd]
        else []) ++ reap_events now server rest

/-- Two servers agree on every member other than the slot table. -/
def same_header (a b : telnet_server_t) : Prop :=
  a.listen_sockfd = b.listen_sockfd ∧ a.port = b.port ∧ a.max_clients = b.max_clients ∧
    a.running = b.running ∧ a.max_fd = b.max_fd

/-- The first white-space-delimited token of a line. -/
def first_token (line : List Nat) : List Nat :=
  (line.dropWhile isspace).takeWhile (fun c => !isspace c)

/-- A stack whose `cmd` array still holds the word `quit` and whose `arg` array still holds
the text `hi`, as earlier calls of the dispatcher leave them. -/
def used_stack : Stack :=
  { cmd := bytes "quit" ++ List.replicate 124 0, arg := bytes "hi" ++ List.replicate 1022 0 }

/-- An operation on the slot table: a call of `telnets_add_client`, of
`telnets_remove_client` or of `telnets_cleanup_clients`, with what the environment supplies
to it. -/
inductive Op where
  | add (now : Int) (malloc_ok : Bool) (sockfd : Int) (addr : sockaddr_in)
  | remove (client_index : Int)
  | cleanup (now : Int)
deriving DecidableEq, Repr

/-- The server after one operation. -/
def apply_op (server : telnet_server_t) : Op → telnet_server_t
  | Op.add now malloc_ok sockfd addr => (telnets_add_client now malloc_ok server sockfd addr).2
  | Op.remove client_index => (telnets_remove_client server client_index).1
  | Op.cleanup now => (telnets_cleanup_clients now server).1

/-- The server after a sequence of operations. -/
def run_ops (server : telnet_server_t) : List Op → telnet_server_t
  | [] => server
  | op :: rest => run_ops (apply_op server op) rest

/-- The descriptors handed to the calls of `telnets_add_client` that returned 0 during a
sequence of operations, in order. -/
def added_fds (server : telnet_server_t) : List Op → List Int
  | [] => []
  | Op.add now malloc_ok sockfd addr :: rest =>
    (if (telnets_add_client now malloc_ok server sockfd addr).1 = 0 then [sockfd] else []) ++
      added_fds (apply_op server (Op.add now malloc_ok sockfd addr)) rest
  | op :: rest => added_fds (apply_op server op) rest

/-- The highest-numbered descriptor in use: the maximum of the listening descriptor and the
descriptors of the occupied slots. -/
def max_in_use (server : telnet_server_t) : Int :=
  (server.clients.filterMap (fun o => o.map (fun c => c.sockfd))).foldl max server.listen_sockfd

/-- The number of occupied slots. -/
def occupied (server : telnet_server_t) : Nat :=
  (server.clients.filter (fun o => o.isSome)).length

theorem handle_commands_eq (client : telnet_client_t) (data : List Nat) :
    telnets_handle_commands client data =
      { client with telnet_state := filter_run client.telnet_state data } := by
  induction data generalizing client with
  | nil => rfl
  | cons c rest ih => simp [telnets_handle_commands, filter_run, ih]

theorem filter_run_append (s : Int) (a b : List Nat) :
    filter_run s (a ++ b) = filter_run (filter_run s a) b := by
  induction a generalizing s with
  | nil => rfl
  | cons c rest ih => simp [filter_run, ih]

theorem filter_step_range (s : Int) (c : Nat) (h0 : 0 ≤ s) (h4 : s ≤ 4) :
    0 ≤ filter_step s c ∧ filter_step s c ≤ 4 := by
  unfold filter_step
  split_ifs <;> omega

theorem filter_run_range (s : Int) (data : List Nat) (h0 : 0 ≤ s) (h4 : s ≤ 4) :
    0 ≤ filter_run s data ∧ filter_run s data ≤ 4 := by
  induction data generalizing s with
  | nil => exact ⟨h0, h4⟩
  | cons c rest ih =>
    have h := filter_step_range s c h0 h4
    exact ih _ h.1 h.2

/-- C2: for every state `s` of `0 .. 4` and every byte `c`, one step of
`telnets_handle_commands` yields the state of the specification's transition table, and the
state stays within `0 .. 4`, after one byte and after any run of bytes. -/
theorem C2_filter_step_matches_table (s : Int) (c : Nat) (h0 : 0 ≤ s) (h4 : s ≤ 4) :
    (∀ client : telnet_client_t, client.telnet_state = s →
        (telnets_handle_commands client [c]).telnet_state = spec_transition s c) ∧
      filter_step s c = spec_transition s c ∧
      (0 ≤ filter_step s c ∧ filter_step s c ≤ 4) ∧
      (∀ (client : telnet_client_t) (data : List Nat), client.telnet_state = s →
        0 ≤ (telnets_handle_commands client data).telnet_state ∧
          (telnets_handle_commands client data).telnet_state ≤ 4) := by
  have hstep : filter_step s c = spec_transition s c := by
    have hs : s = 0 ∨ s = 1 ∨ s = 2 ∨ s = 3 ∨ s = 4 := by omega
    rcases hs with h | h | h | h | h <;> subst h <;>
      simp [filter_step, spec_transition, TELNET_IAC, TELNET_WILL, TELNET_WONT, TELNET_DO,
        TELNET_DONT, TELNET_SB, TELNET_SE]
  refine ⟨?_, hstep, filter_step_range s c h0 h4, ?_⟩
  · intro client hc
    simp [telnets_handle_commands, hc, hstep]
  · intro client data hc
    rw [handle_commands_eq]
    simpa [hc] using filter_run_range s data h0 h4

/-- C2 at the state `GOT_COMMAND_LEAD` and the byte `WILL`. -/
theorem C2_filter_step_matches_table_witness :
    filter_step 1 0xFB = 2 ∧ spec_transition 1 0xFB = 2 :=
  ⟨((C2_filter_step_matches_table 1 0xFB (by decide) (by decide)).2.1).trans (by decide),
    by decide⟩

/-- C6: the filter state after feeding a byte stream depends only on the starting state and
the bytes: feeding `a ++ b` is feeding `a` and then `b`, the resulting state is the fold of
the step function over the bytes from the starting state, and no other field of the record is
read or changed. -/
theorem C6_filter_state_depends_only_on_bytes (client : telnet_client_t) (a b : List Nat) :
    telnets_handle_commands client (a ++ b) =
        telnets_handle_commands (telnets_handle_commands client a) b ∧
      (telnets_handle_commands client a).telnet_state = filter_run client.telnet_state a ∧
      telnets_handle_commands client a =
        { client with telnet_state := (telnets_handle_commands client a).telnet_state } ∧
      (∀ other : telnet_client_t, other.telnet_state = client.telnet_state →
        (telnets_handle_commands other a).telnet_state =
          (telnets_handle_commands client a).telnet_state) := by
  refine ⟨?_, ?_, ?_, ?_⟩
  · simp [handle_commands_eq, filter_run_append]
  · simp [handle_commands_eq]
  · simp [handle_commands_eq]
  · intro other h
    simp [handle_commands_eq, h]

/-! ## Lemmas on the slot table and the receive loop -/

theorem client_at_lt {server : telnet_server_t} {i : Int} {client : telnet_client_t}
    (h : client_at server i = some client) : 0 ≤ i ∧ i.toNat < server.clients.length := by
  unfold client_at at h
  split_ifs at h with h0
  refine ⟨h0, ?_⟩
  by_contra hlt
  have : server.clients[i.toNat]? = none := List.getElem?_eq_none (by omega)
  simp [this] at h

theorem client_at_set_self (server : telnet_server_t) (i : Int) (v : Option telnet_client_t)
    (h0 : 0 ≤ i) (hlt : i.toNat < server.clients.length) :
    client_at { server with clients := server.clients.set i.toNat v } i = v := by
  simp [client_at, h0, List.getElem?_set_self hlt]

theorem client_at_set_ne (server : telnet_server_t) (i j : Int) (v : Option telnet_client_t)
    (h0 : 0 ≤ i) (hne : i ≠ j) :
    client_at { server with clients := server.clients.set i.toNat v } j = client_at server j := by
  unfold client_at
  split_ifs with hj
  · have : i.toNat ≠ j.toNat := by omega
    simp [List.getElem?_set_ne this]
  · rfl

theorem foldl_push_byte_fields (p : List Nat) (client : telnet_client_t) :
    p.foldl push_byte client =
      { client with
        buffer := (p.foldl push_byte client).buffer
        buffer_len := client.buffer_len + p.length } := by
  induction p generalizing client with
  | nil => simp
  | cons c rest ih =>
    rw [List.foldl_cons, ih]
    simp [push_byte]
    omega

theorem foldl_push_byte_length (p : List Nat) (client : telnet_client_t) :
    (p.foldl push_byte client).buffer.length = client.buffer.length := by
  induction p generalizing client with
  | nil => simp
  | cons c rest ih => rw [List.foldl_cons, ih]; simp [push_byte]

theorem line_of_push_byte (client : telnet_client_t) (c : Nat) (h0 : 0 ≤ client.buffer_len)
    (hlt : client.buffer_len < client.buffer.length) :
    line_of (push_byte client c) = line_of client ++ [c] := by
  have hn : client.buffer_len.toNat < client.buffer.length := by omega
  have h1 : (client.buffer_len + 1).toNat = client.buffer_len.toNat + 1 := by omega
  have hset : client.buffer.set client.buffer_len.toNat c =
      client.buffer.take client.buffer_len.toNat ++
        c :: client.buffer.drop (client.buffer_len.toNat + 1) := by
    rw [List.set_eq_take_append_cons_drop]; simp [hn]
  have hlen : (client.buffer.take client.buffer_len.toNat).length = client.buffer_len.toNat := by
    simp; omega
  simp only [line_of, push_byte, h1]
  rw [hset, List.take_append_eq_append_take, hlen]
  simp

theorem line_of_foldl_push_byte (p : List Nat) (client : telnet_client_t)
    (h0 : 0 ≤ client.buffer_len) (hcap : client.buffer_len + p.length ≤ client.buffer.length) :
    line_of (p.foldl push_byte client) = line_of client ++ p := by
  induction p generalizing client with
  | nil => simp
  | cons c rest ih =>
    simp only [List.length_cons, Nat.cast_add, Nat.cast_one] at hcap
    rw [List.foldl_cons, ih]
    · rw [line_of_push_byte client c h0 (by omega)]; simp
    · simp [push_byte]; omega
    · simp [push_byte]; omega

theorem isprint_iff (c : Nat) : isprint c = true ↔ 32 ≤ c ∧ c ≤ 126 := by
  simp [isprint]

theorem filter_run_no_lead (p : List Nat) (h : ∀ c ∈ p, c ≠ TELNET_IAC) : filter_run 0 p = 0 := by
  induction p with
  | nil => rfl
  | cons c rest ih =>
    have hc : c ≠ TELNET_IAC := h c (by simp)
    have : filter_step 0 c = 0 := by simp [filter_step, hc]
    rw [filter_run, this]
    exact ih (fun d hd => h d (by simp [hd]))

/-- The loop on a byte that is neither an editing byte nor printable: it is handed to the
line rules and dropped. -/
theorem recv_loop_dropped (now : Int) (ts : List Nat) (stack : Nat → Stack) (i c : Nat)
    (rest : List Nat) (st : LoopState) (hs : st.client.telnet_state = 0)
    (h1 : c ≠ 127) (h2 : c ≠ 8) (h3 : c ≠ 13) (h4 : c ≠ 10) (hp : isprint c = false) :
    recv_loop now ts stack i (c :: rest) st =
      recv_loop now ts stack (i + 1) rest { st with handed := st.handed ++ [i] } := by
  simp [recv_loop, hs, h1, h2, h3, h4, hp]

/-- The loop on a printable byte while the line has room: the byte is appended and echoed. -/
theorem recv_loop_push (now : Int) (ts : List Nat) (stack : Nat → Stack) (i c : Nat)
    (rest : List Nat) (st : LoopState) (hs : st.client.telnet_state = 0)
    (hp : isprint c = true) (hroom : st.client.buffer_len < 1023) :
    recv_loop now ts stack i (c :: rest) st =
      recv_loop now ts stack (i + 1) rest
        { client := push_byte st.client c
          events := st.events ++ [Event.send st.client.sockfd [c]]
          handed := st.handed ++ [i] } := by
  have hc := (isprint_iff c).1 hp
  have h1 : c ≠ 127 := by omega
  have h2 : c ≠ 8 := by omega
  have h3 : c ≠ 13 := by omega
  have h4 : c ≠ 10 := by omega
  simp [recv_loop, hs, h1, h2, h3, h4, hp, hroom, push_byte, TELNET_BUFFER_SIZE]

/-- The loop on a run of printable bytes that fits the line. -/
theorem recv_loop_printable (now : Int) (ts : List Nat) (stack : Nat → Stack) (p : List Nat) :
    ∀ (i : Nat) (st : LoopState), st.client.telnet_state = 0 →
      st.client.buffer_len + p.length ≤ 1023 → (∀ c ∈ p, isprint c = true) →
      recv_loop now ts stack i p st =
        some ({ client := p.foldl push_byte st.client
                events := st.events ++ p.map (fun c => Event.send st.client.sockfd [c])
                handed := st.handed ++ List.range' i p.length }, false) := by
  induction p with
  | nil => intro i st _ _ _; simp [recv_loop]
  | cons c rest ih =>
    intro i st hs hcap hp
    simp only [List.length_cons, Nat.cast_add, Nat.cast_one] at hcap
    rw [recv_loop_push now ts stack i c rest st hs (hp c (by simp)) (by omega)]
    rw [ih (i + 1) _ (by simp [push_byte, hs]) (by simp [push_byte]; omega)
      (fun d hd => hp d (by simp [hd]))]
    simp [push_byte, List.range'_succ]

theorem sent_to_echo (fd : Int) (p : List Nat) :
    sent_to fd (p.map (fun c => Event.send fd [c])) = p := by
  induction p with
  | nil => rfl
  | cons c rest ih => simp [sent_to, ih]

/-- Receive handling of a non-empty chunk on an occupied slot, in terms of the loop. -/
theorem recv_data_proc_received (now : Int) (ts : List Nat) (stack : Nat → Stack)
    (server : telnet_server_t) (idx : Int) (client : telnet_client_t) (data : List Nat)
    (hslot : client_at server idx = some client) (hne : data ≠ []) :
    telnets_recv_data_proc now ts stack server idx (Recv.received data) =
      match recv_loop now ts stack 0 data
          { client := { client with
                        last_active := now
                        telnet_state := filter_run client.telnet_state data }
            events := [], handed := [] } with
      | none => none
      | some (st, released) =>
        if released then
          some { server := (telnets_remove_client { server with
                    clients := server.clients.set idx.toNat (some st.client) } idx).1
                 events := st.events ++ (telnets_remove_client { server with
                    clients := server.clients.set idx.toNat (some st.client) } idx).2
                 handed := st.handed }
        else
          some { server := { server with
                    clients := server.clients.set idx.toNat (some st.client) }
                 events := st.events, handed := st.handed } := by
  have hlen : ¬ ((data.length : Int) ≤ 0) := by
    cases data with
    | nil => exact absurd rfl hne
    | cons c rest => simp only [List.length_cons, Nat.cast_add, Nat.cast_one]; omega
  simp only [telnets_recv_data_proc, hslot, bytes_received, hlen, if_false, handle_commands_eq]

/-- Receive handling when the loop runs to the end of the chunk. -/
theorem recv_data_proc_of_loop (now : Int) (ts : List Nat) (stack : Nat → Stack)
    (server : telnet_server_t) (idx : Int) (client : telnet_client_t) (data : List Nat)
    (st : LoopState) (hslot : client_at server idx = some client) (hne : data ≠ [])
    (hloop : recv_loop now ts stack 0 data
        { client := { client with
                      last_active := now
                      telnet_state := filter_run client.telnet_state data }
          events := [], handed := [] } = some (st, false)) :
    telnets_recv_data_proc now ts stack server idx (Recv.received data) =
      some { server := { server with clients := server.clients.set idx.toNat (some st.client) }
             events := st.events, handed := st.handed } := by
  rw [recv_data_proc_received now ts stack server idx client data hslot hne, hloop]
  rfl

/-- C4: in state `NORMAL`, the bytes `0xFF 0xFB 0x01` followed by printable bytes `p` that fit
the line write exactly `p` to the client, one `send` per byte, and append exactly `p` to the
line, both when all arrive in one read and when `p` arrives in the next read; the three
negotiation bytes alone change neither the line nor the output. -/
theorem C4_negotiation_then_printable (now now2 : Int) (ts ts2 : List Nat)
    (stack stack2 : Nat → Stack) (server : telnet_server_t) (idx : Int)
    (client : telnet_client_t) (p : List Nat)
    (hslot : client_at server idx = some client)
    (hstate : client.telnet_state = 0)
    (hbuf : client.buffer.length = TELNET_BUFFER_SIZE)
    (h0 : 0 ≤ client.buffer_len)
    (hp : ∀ c ∈ p, isprint c = true)
    (hcap : client.buffer_len + p.length ≤ 1023) :
    (∃ r c1,
        telnets_recv_data_proc now ts stack server idx (Recv.received ([255, 251, 1] ++ p))
          = some r ∧
        r.events = p.map (fun c => Event.send client.sockfd [c]) ∧
        sent_to client.sockfd r.events = p ∧
        client_at r.server idx = some c1 ∧
        line_of c1 = line_of client ++ p ∧
        c1.buffer_len = client.buffer_len + p.length ∧
        c1.telnet_state = 0 ∧ c1.closed = client.closed) ∧
    (∃ r1 c1,
        telnets_recv_data_proc now ts stack server idx (Recv.received [255, 251, 1]) = some r1 ∧
        r1.events = [] ∧
        client_at r1.server idx = some c1 ∧
        line_of c1 = line_of client ∧ c1.buffer = client.buffer ∧
        c1.buffer_len = client.buffer_len ∧
        c1.telnet_state = 0 ∧ c1.closed = client.closed ∧
        (p ≠ [] → ∃ r2 c2,
          telnets_recv_data_proc now2 ts2 stack2 r1.server idx (Recv.received p) = some r2 ∧
          r2.events = p.map (fun c => Event.send client.sockfd [c]) ∧
          sent_to client.sockfd r2.events = p ∧
          client_at r2.server idx = some c2 ∧
          line_of c2 = line_of client ++ p ∧
          c2.buffer_len = client.buffer_len + p.length ∧
          c2.telnet_state = 0 ∧ c2.closed = client.closed)) := by
  obtain ⟨hidx0, hidxlt⟩ := client_at_lt hslot
  have hnolead : ∀ c ∈ p, c ≠ TELNET_IAC := by
    intro c hc
    have := (isprint_iff c).1 (hp c hc)
    simp only [TELNET_IAC]; omega
  have hcapb : client.buffer_len + p.length ≤ client.buffer.length := by
    rw [hbuf]; simp only [TELNET_BUFFER_SIZE]; omega
  have hrun3 : filter_run client.telnet_state [255, 251, 1] = 0 := by rw [hstate]; rfl
  have hrun : filter_run client.telnet_state ([255, 251, 1] ++ p) = 0 := by
    rw [filter_run_append, hrun3]; exact filter_run_no_lead p hnolead
  have hrunp : filter_run 0 p = 0 := filter_run_no_lead p hnolead
  let cl : telnet_client_t := { client with last_active := now, telnet_state := 0 }
  have hone := recv_data_proc_of_loop now ts stack server idx client ([255, 251, 1] ++ p)
    { client := p.foldl push_byte cl
      events := [] ++ p.map (fun c => Event.send cl.sockfd [c])
      handed := [0, 1, 2] ++ List.range' 3 p.length } hslot (by simp)
    (by
      rw [hrun]
      simp only [List.cons_append, List.nil_append]
      rw [recv_loop_dropped _ _ _ _ _ _ _ rfl (by decide) (by decide) (by decide) (by decide)
          (by decide),
        recv_loop_dropped _ _ _ _ _ _ _ rfl (by decide) (by decide) (by decide) (by decide)
          (by decide),
        recv_loop_dropped _ _ _ _ _ _ _ rfl (by decide) (by decide) (by decide) (by decide)
          (by decide),
        recv_loop_printable now ts stack p _ _ rfl (by simpa using hcap) hp]
      rfl)
  have hthree := recv_data_proc_of_loop now ts stack server idx client [255, 251, 1]
    { client := cl, events := [], handed := [0, 1, 2] } hslot (by simp)
    (by
      rw [hrun3]
      rw [recv_loop_dropped _ _ _ _ _ _ _ rfl (by decide) (by decide) (by decide) (by decide)
          (by decide),
        recv_loop_dropped _ _ _ _ _ _ _ rfl (by decide) (by decide) (by decide) (by decide)
          (by decide),
        recv_loop_dropped _ _ _ _ _ _ _ rfl (by decide) (by decide) (by decide) (by decide)
          (by decide)]
      rfl)
  constructor
  · refine ⟨_, p.foldl push_byte cl, hone, ?_, ?_, ?_, ?_, ?_, ?_, ?_⟩
    · simp [cl]
    · simp [cl, sent_to_echo]
    · exact client_at_set_self server idx _ hidx0 hidxlt
    · rw [line_of_foldl_push_byte p cl h0 hcapb]; rfl
    · rw [foldl_push_byte_fields]
    · rw [foldl_push_byte_fields]
    · rw [foldl_push_byte_fields]
  · refine ⟨_, cl, hthree, rfl, ?_, rfl, rfl, rfl, rfl, rfl, ?_⟩
    · exact client_at_set_self server idx _ hidx0 hidxlt
    · intro hne
      let cl2 : telnet_client_t := { cl with last_active := now2 }
      have hslot1 : client_at { server with clients := server.clients.set idx.toNat (some cl) } idx
          = some cl := client_at_set_self server idx _ hidx0 hidxlt
      have hlt1 : idx.toNat <
          ({ server with clients := server.clients.set idx.toNat (some cl) } :
            telnet_server_t).clients.length := by simpa using hidxlt
      have htwo := recv_data_proc_of_loop now2 ts2 stack2 _ idx cl p
        { client := p.foldl push_byte cl2
          events := [] ++ p.map (fun c => Event.send cl2.sockfd [c])
          handed := [] ++ List.range' 0 p.length } hslot1 hne
        (by
          have : filter_run cl.telnet_state p = 0 := hrunp
          rw [this, recv_loop_printable now2 ts2 stack2 p _ _ rfl (by simpa using hcap) hp])
      refine ⟨_, p.foldl push_byte cl2, htwo, ?_, ?_, ?_, ?_, ?_, ?_, ?_⟩
      · simp [cl2, cl]
      · simp [cl2, cl, sent_to_echo]
      · exact client_at_set_self _ idx _ hidx0 hlt1
      · rw [line_of_foldl_push_byte p cl2 h0 hcapb]; rfl
      · rw [foldl_push_byte_fields]
      · rw [foldl_push_byte_fields]
      · rw [foldl_push_byte_fields]

/-- C4 at the fresh record of `one_client_server` and the bytes `hi`. -/
theorem C4_negotiation_then_printable_witness :
    ∃ r c1,
      telnets_recv_data_proc 101 [] zero_stack one_client_server 0
          (Recv.received ([255, 251, 1] ++ [104, 105])) = some r ∧
        r.events = [Event.send 4 [104], Event.send 4 [105]] ∧
        client_at r.server 0 = some c1 ∧ line_of c1 = [104, 105] :=
  match (C4_negotiation_then_printable 101 102 [] [] zero_stack zero_stack one_client_server 0
      (new_client 100 4 peer) [104, 105] rfl rfl (List.length_replicate _ _) (by decide)
      (by decide) (by decide)).1 with
  | ⟨r, c1, h1, h2, _, h4, h5, _⟩ => ⟨r, c1, h1, h2, h4, h5⟩

theorem find_available_from_cases (server : telnet_server_t) (is : List Nat) :
    find_available_from server is = -1 ∨
      ∃ i ∈ is, find_available_from server is = (i : Int) ∧ client_at server i = none := by
  induction is with
  | nil => left; rfl
  | cons i rest ih =>
    simp only [find_available_from]
    split_ifs with h
    · right; exact ⟨i, by simp, rfl, h⟩
    · rcases ih with h1 | ⟨j, hj, h2, h3⟩
      · left; exact h1
      · right; exact ⟨j, by simp [hj], h2, h3⟩

theorem add_client_clients (now : Int) (ok : Bool) (server : telnet_server_t) (fd : Int)
    (addr : sockaddr_in) (h : (telnets_add_client now ok server fd addr).1 = 0) :
    (telnets_add_client now ok server fd addr).2.clients =
      server.clients.set (telnets_find_available_slot server).toNat
        (some (new_client now fd addr)) := by
  unfold telnets_add_client at h ⊢
  dsimp only at h ⊢
  split_ifs at h ⊢ <;> first | rfl | simp at h

theorem add_client_slot (now : Int) (ok : Bool) (server : telnet_server_t) (fd : Int)
    (addr : sockaddr_in) (hs : server_ok server)
    (h : (telnets_add_client now ok server fd addr).1 = 0) :
    client_at server (telnets_find_available_slot server) = none ∧
      client_at (telnets_add_client now ok server fd addr).2 (telnets_find_available_slot server)
        = some (new_client now fd addr) := by
  have hidx : ¬ telnets_find_available_slot server < 0 := by
    intro hneg
    simp [telnets_add_client, hneg] at h
  rcases find_available_from_cases server (List.range server.max_clients.toNat) with
    h1 | ⟨i, hi, h2, h3⟩
  · exact absurd (by rw [telnets_find_available_slot, h1]; decide) hidx
  · have hfind : telnets_find_available_slot server = (i : Int) := h2
    have hilt : i < server.clients.length := by
      have := List.mem_range.1 hi
      rw [hs.1] at this
      rw [hs.2]
      simpa using this
    refine ⟨by rw [hfind]; exact h3, ?_⟩
    unfold client_at
    rw [add_client_clients now ok server fd addr h, hfind]
    simp [hilt]

theorem find_available_range' (server : telnet_server_t) (k : Nat)
    (hk : client_at server k = none) :
    ∀ (n s : Nat), s ≤ k → k < s + n → (∀ j : Nat, s ≤ j → j < k → client_at server j ≠ none) →
      find_available_from server (List.range' s n) = (k : Int) := by
  intro n
  induction n with
  | zero => intro s h1 h2 _; omega
  | succ n ih =>
    intro s h1 h2 hocc
    rw [List.range'_succ, find_available_from]
    by_cases hsk : s = k
    · subst hsk; simp [hk]
    · have hs : client_at server s ≠ none := hocc s (le_refl _) (by omega)
      rw [if_neg hs]
      exact ih (s + 1) (by omega) (by omega) (fun j hj1 hj2 => hocc j (by omega) hj2)

theorem find_available_full (server : telnet_server_t) (is : List Nat)
    (h : ∀ i ∈ is, client_at server (i : Nat) ≠ none) : find_available_from server is = -1 := by
  induction is with
  | nil => rfl
  | cons i rest ih =>
    rw [find_available_from, if_neg (h i (by simp))]
    exact ih (fun j hj => h j (by simp [hj]))

theorem client_at_nat (server : telnet_server_t) (i : Nat) :
    client_at server (i : Int) = (server.clients[i]?).getD none := by
  simp [client_at]

theorem add_clients_fill (reqs : List (Int × Int × sockaddr_in)) :
    ∀ (server : telnet_server_t) (pre : List telnet_client_t) (m : Nat),
      server.max_clients = ((pre.length + m : Nat) : Int) →
      server.clients = pre.map some ++ List.replicate m none → reqs.length ≤ m →
      (add_clients server reqs).1 = List.replicate reqs.length 0 ∧
        (add_clients server reqs).2.clients =
          pre.map some ++ reqs.map (fun q => some (new_client q.1 q.2.1 q.2.2)) ++
            List.replicate (m - reqs.length) none := by
  induction reqs with
  | nil => intro server pre m _ hc _; simp [add_clients, hc]
  | cons q rest ih =>
    intro server pre m hmax hc hlen
    simp only [List.length_cons] at hlen
    obtain ⟨m1, rfl⟩ : ∃ m1, m = m1 + 1 := ⟨m - 1, by omega⟩
    have hat : ∀ j : Nat, client_at server (j : Int) = (pre.map some ++ List.replicate (m1 + 1) none)[j]?.getD none := by
      intro j; rw [client_at_nat, hc]
    have hfind : telnets_find_available_slot server = (pre.length : Int) := by
      unfold telnets_find_available_slot
      rw [hmax, Int.toNat_ofNat, List.range_eq_range']
      apply find_available_range' server pre.length
      · rw [hat, List.getElem?_append_right (by simp)]; simp
      · omega
      · omega
      · intro j _ hj
        rw [hat, List.getElem?_append_left (by simpa using hj)]
        simp [List.getElem?_map, List.getElem?_eq_getElem hj]
    have hret : (telnets_add_client q.1 true server q.2.1 q.2.2).1 = 0 := by
      unfold telnets_add_client
      dsimp only
      rw [hfind]
      have : ¬ ((pre.length : Int) < 0) := by omega
      simp only [this, if_false]
      split_ifs <;> first | rfl | simp_all
    have hcl := add_client_clients q.1 true server q.2.1 q.2.2 hret
    rw [hfind, Int.toNat_ofNat, hc] at hcl
    have hset : (pre.map some ++ List.replicate (m1 + 1) none).set pre.length
        (some (new_client q.1 q.2.1 q.2.2)) =
        (pre ++ [new_client q.1 q.2.1 q.2.2]).map some ++ List.replicate m1 none := by
      rw [List.set_append_right _ _ (by simp)]
      simp [List.replicate_succ]
    rw [hset] at hcl
    have hmax2 : (telnets_add_client q.1 true server q.2.1 q.2.2).2.max_clients =
        (((pre ++ [new_client q.1 q.2.1 q.2.2]).length + m1 : Nat) : Int) := by
      have : (telnets_add_client q.1 true server q.2.1 q.2.2).2.max_clients
          = server.max_clients := by
        unfold telnets_add_client
        dsimp only
        split_ifs <;> rfl
      rw [this, hmax]
      simp only [List.length_append, List.length_singleton]
      congr 1
      omega
    have := ih _ (pre ++ [new_client q.1 q.2.1 q.2.2]) m1 hmax2 hcl (by omega)
    simp only [add_clients, hret, List.length_cons, List.replicate_succ]
    refine ⟨by rw [this.1], ?_⟩
    rw [this.2]
    simp

/-- C8: starting from five empty slots, `k ≤ 5` consecutive calls of `telnets_add_client`
all return 0; the `j`-th record is stored in slot `j - 1`, which was empty until then, and the
slots of the earlier records keep their records (the table afterwards is the list of the `k`
records followed by empty slots).  On a table whose five slots are occupied,
`telnets_add_client` returns -1 and leaves the server unchanged, and
`telnets_handle_new_connection` only closes the accepted descriptor: no welcome, no prompt. -/
theorem C8_admission_control (server : telnet_server_t) (reqs : List (Int × Int × sockaddr_in))
    (hmax : server.max_clients = 5) (hempty : server.clients = List.replicate 5 none)
    (hk : reqs.length ≤ 5) :
    (add_clients server reqs).1 = List.replicate reqs.length 0 ∧
      (add_clients server reqs).2.clients =
        reqs.map (fun q => some (new_client q.1 q.2.1 q.2.2)) ++
          List.replicate (5 - reqs.length) none ∧
      (∀ (j : Nat) (hj : j < reqs.length),
        client_at (add_clients server (reqs.take j)).2 (j : Int) = none ∧
        client_at (add_clients server reqs).2 (j : Int) =
          some (new_client reqs[j].1 reqs[j].2.1 reqs[j].2.2)) ∧
      (∀ full : telnet_server_t, server_ok full →
        (∀ i : Nat, i < 5 → client_at full (i : Int) ≠ none) →
        ∀ (now : Int) (ok nb : Bool) (fd : Int) (addr : sockaddr_in),
          telnets_add_client now ok full fd addr = (-1, full) ∧
          (0 ≤ fd → telnets_handle_new_connection now ok nb full fd addr
            = (full, [Event.close fd]))) := by
  have hfill : ∀ rs : List (Int × Int × sockaddr_in), rs.length ≤ 5 →
      (add_clients server rs).1 = List.replicate rs.length 0 ∧
      (add_clients server rs).2.clients =
        rs.map (fun q => some (new_client q.1 q.2.1 q.2.2)) ++
          List.replicate (5 - rs.length) none := by
    intro rs hrs
    have := add_clients_fill rs server [] 5 (by simpa using hmax) (by simpa using hempty) hrs
    simpa using this
  refine ⟨(hfill reqs hk).1, (hfill reqs hk).2, ?_, ?_⟩
  · intro j hj
    constructor
    · have hlen : (reqs.take j).length = j := by simp; omega
      rw [client_at_nat, (hfill (reqs.take j) (by omega)).2]
      rw [List.getElem?_append_right (by simp [hlen])]
      simp [hlen]
    · rw [client_at_nat, (hfill reqs hk).2]
      rw [List.getElem?_append_left (by simpa using hj)]
      simp [List.getElem?_eq_getElem hj]
  · intro full hfull hocc now ok nb fd addr
    have hfind : telnets_find_available_slot full = -1 := by
      unfold telnets_find_available_slot
      apply find_available_full
      intro i hi
      have := List.mem_range.1 hi
      rw [hfull.1] at this
      exact hocc i (by simpa [TELNET_MAX_CLIENTS] using this)
    constructor
    · simp [telnets_add_client, hfind]
    · intro hfd
      have : ¬ fd < 0 := by omega
      unfold telnets_handle_new_connection
      simp only [this, if_false, hfind]
      split_ifs <;> first | rfl | simp_all

/-- C8 at `empty_server` and two connections (descriptors 4 and 5). -/
theorem C8_admission_control_witness :
    (add_clients empty_server [(100, 4, peer), (101, 5, peer)]).1 = [0, 0] ∧
      (add_clients empty_server [(100, 4, peer), (101, 5, peer)]).2.clients =
        [some (new_client 100 4 peer), some (new_client 101 5 peer), none, none, none] :=
  ⟨(C8_admission_control empty_server [(100, 4, peer), (101, 5, peer)] rfl rfl (by decide)).1,
    (C8_admission_control empty_server [(100, 4, peer), (101, 5, peer)] rfl rfl (by decide)).2.1⟩

/-! ## The idle reaper -/

theorem reap_events_congr (now : Int) (s1 s2 : telnet_server_t) (is : List Nat)
    (h : ∀ i ∈ is, client_at s1 (i : Int) = client_at s2 (i : Int)) :
    reap_events now s1 is = reap_events now s2 is := by
  induction is with
  | nil => rfl
  | cons i rest ih =>
    simp only [reap_events]
    rw [h i (by simp), ih (fun j hj => h j (by simp [hj]))]

theorem cleanup_from_spec (now : Int) (is : List Nat) :
    ∀ (server : telnet_server_t) (events : List Event), is.Nodup →
      (∀ i ∈ is, (i : Int) < server.max_clients) →
      (cleanup_from now is (server, events)).2 = events ++ reap_events now server is ∧
      (∀ j : Nat, j ∈ is →
        client_at (cleanup_from now is (server, events)).1 (j : Int)
          = reaped now (client_at server (j : Int))) ∧
      (∀ j : Nat, j ∉ is →
        client_at (cleanup_from now is (server, events)).1 (j : Int)
          = client_at server (j : Int)) ∧
      same_header (cleanup_from now is (server, events)).1 server := by
  induction is with
  | nil =>
    intro server events _ _
    simp [cleanup_from, reap_events, same_header]
  | cons i rest ih =>
    intro server events hnd hlt
    have hi : i ∉ rest := (List.nodup_cons.1 hnd).1
    have hnd1 : rest.Nodup := (List.nodup_cons.1 hnd).2
    have hilt : (i : Int) < server.max_clients := hlt i (by simp)
    have hlt1 : ∀ j ∈ rest, (j : Int) < server.max_clients := fun j hj => hlt j (by simp [hj])
    cases hc : client_at server (i : Int) with
    | none =>
      obtain ⟨a, b, c, d⟩ := ih server events hnd1 hlt1
      simp only [cleanup_from, hc, reap_events, List.nil_append]
      refine ⟨a, ?_, ?_, d⟩
      · intro j hj
        rcases List.mem_cons.1 hj with rfl | hj
        · rw [c j hi, hc]; rfl
        · exact b j hj
      · intro j hj
        exact c j (fun h => hj (by simp [h]))
    | some cl =>
      by_cases ht : now - cl.last_active ≥ 600
      · -- the record is evicted
        have hrem : telnets_remove_client server (i : Int) =
            ({ server with clients := server.clients.set i none }, [Event.close cl.sockfd]) := by
          have hg : ¬ ((i : Int) < 0 ∨ (i : Int) ≥ server.max_clients) := by omega
          simp [telnets_remove_client, hg, hc]
        obtain ⟨hi0, hilen⟩ := client_at_lt hc
        have hsame : ∀ j : Nat, j ≠ i →
            client_at { server with clients := server.clients.set i none } (j : Int)
              = client_at server (j : Int) := by
          intro j hj
          have := client_at_set_ne server (i : Int) (j : Int) none hi0 (by omega)
          simpa using this
        have hself : client_at { server with clients := server.clients.set i none } (i : Int)
            = none := by
          have := client_at_set_self server (i : Int) none hi0 hilen
          simpa using this
        obtain ⟨a, b, c, d⟩ := ih { server with clients := server.clients.set i none }
          (events ++ [Event.send cl.sockfd timeout_msg, Event.close cl.sockfd]) hnd1 hlt1
        have hstep : cleanup_from now (i :: rest) (server, events) =
            cleanup_from now rest ({ server with clients := server.clients.set i none },
              events ++ [Event.send cl.sockfd timeout_msg, Event.close cl.sockfd]) := by
          simp [cleanup_from, hc, is_telnet_client_timeout, TELNET_IDLE_TIMEOUT, ht, hrem]
        rw [hstep]
        refine ⟨?_, ?_, ?_, ?_⟩
        · rw [a, reap_events_congr now _ server rest (fun j hj => hsame j (by
            intro h; exact hi (h ▸ hj)))]
          simp [reap_events, hc, ht]
        · intro j hj
          rcases List.mem_cons.1 hj with rfl | hj
          · rw [c j hi, hself, hc]; simp [reaped, ht]
          · rw [b j hj, hsame j (by intro h; exact hi (h ▸ hj))]
        · intro j hj
          have hji : j ≠ i := fun h => hj (by simp [h])
          rw [c j (fun h => hj (by simp [h])), hsame j hji]
        · exact d
      · -- the record stays
        obtain ⟨a, b, c, d⟩ := ih server events hnd1 hlt1
        have hstep : cleanup_from now (i :: rest) (server, events) =
            cleanup_from now rest (server, events) := by
          simp [cleanup_from, hc, is_telnet_client_timeout, TELNET_IDLE_TIMEOUT, ht]
        rw [hstep]
        refine ⟨?_, ?_, fun j hj => c j (fun h => hj (by simp [h])), d⟩
        · rw [a]; simp [reap_events, hc, ht]
        · intro j hj
          rcases List.mem_cons.1 hj with rfl | hj
          · rw [c j hi, hc]; simp [reaped, ht]
          · exact b j hj

theorem remove_client_length (server : telnet_server_t) (i : Int) :
    (telnets_remove_client server i).1.clients.length = server.clients.length := by
  unfold telnets_remove_client
  split_ifs
  · rfl
  · split <;> simp

theorem cleanup_from_length (now : Int) (is : List Nat) :
    ∀ (server : telnet_server_t) (events : List Event),
      (cleanup_from now is (server, events)).1.clients.length = server.clients.length := by
  induction is with
  | nil => intro server events; rfl
  | cons i rest ih =>
    intro server events
    simp only [cleanup_from]
    split
    · exact ih _ _
    · split_ifs
      · rw [ih, remove_client_length]
      · exact ih _ _

/-- C9: after `telnets_cleanup_clients` at time `now`, a slot is empty exactly when it was
empty before or its record had `now - last_active ≥ 600`; a record with
`now - last_active < 600` stays in its slot unchanged, one with exactly 600 is evicted.  The
events made are, slot by slot in index order, the timeout notice to the evicted record's
descriptor followed by the `close` of that descriptor (the result of `send` is not looked
at), and nothing else; the other members of the server are unchanged. -/
theorem C9_idle_reaper (now : Int) (server : telnet_server_t) (hs : server_ok server) :
    (telnets_cleanup_clients now server).2 = reap_events now server [0, 1, 2, 3, 4] ∧
      (∀ i : Nat, i < 5 →
        (client_at (telnets_cleanup_clients now server).1 (i : Int) = none ↔
          (client_at server (i : Int) = none ∨
            ∃ c, client_at server (i : Int) = some c ∧ now - c.last_active ≥ 600)) ∧
        (∀ c, client_at server (i : Int) = some c → now - c.last_active < 600 →
          client_at (telnets_cleanup_clients now server).1 (i : Int) = some c) ∧
        (∀ c, client_at server (i : Int) = some c → now - c.last_active = 600 →
          client_at (telnets_cleanup_clients now server).1 (i : Int) = none)) ∧
      same_header (telnets_cleanup_clients now server).1 server ∧
      server_ok (telnets_cleanup_clients now server).1 := by
  have hrange : List.range server.max_clients.toNat = [0, 1, 2, 3, 4] := by
    rw [hs.1]; rfl
  have hspec := cleanup_from_spec now [0, 1, 2, 3, 4] server [] (by decide) (by
    intro i hi
    rw [hs.1]
    simp only [List.mem_cons, List.mem_singleton, List.not_mem_nil, or_false] at hi
    simp only [TELNET_MAX_CLIENTS]
    omega)
  unfold telnets_cleanup_clients
  rw [hrange]
  obtain ⟨a, b, _, d⟩ := hspec
  refine ⟨by simpa using a, ?_, d, ?_⟩
  · intro i hi
    have hmem : i ∈ [0, 1, 2, 3, 4] := by
      simp only [List.mem_cons, List.mem_singleton, List.not_mem_nil, or_false]
      omega
    rw [b i hmem]
    refine ⟨?_, ?_, ?_⟩
    · cases hc : client_at server (i : Int) with
      | none => simp [reaped]
      | some c =>
        by_cases ht : now - c.last_active ≥ 600
        · simp [reaped, ht]
        · simp [reaped, ht]
    · intro c hc ht
      have : ¬ now - c.last_active ≥ 600 := by omega
      simp [hc, reaped, this]
    · intro c hc ht
      have : now - c.last_active ≥ 600 := by omega
      simp [hc, reaped, this]
  · exact ⟨d.2.2.1.trans hs.1, (cleanup_from_length now _ server []).trans hs.2⟩

/-- C9 at a server whose slot 0 was last active at time 100, reaped at time 700: the record
is evicted at exactly 600 idle seconds, after the notice. -/
theorem C9_idle_reaper_witness :
    (telnets_cleanup_clients 700 one_client_server).2 =
        [Event.send 4 timeout_msg, Event.close 4] ∧
      client_at (telnets_cleanup_clients 700 one_client_server).1 0 = none :=
  ⟨(C9_idle_reaper 700 one_client_server ⟨rfl, rfl⟩).1.trans rfl,
    ((C9_idle_reaper 700 one_client_server ⟨rfl, rfl⟩).2.1 0 (by decide)).2.2
      (new_client 100 4 peer) rfl (by decide)⟩

/-! ## Dispatch of a completed line -/

/-- The loop on a run of printable bytes that fits the line, followed by further bytes. -/
theorem recv_loop_printable_then (now : Int) (ts : List Nat) (stack : Nat → Stack)
    (p rest : List Nat) :
    ∀ (i : Nat) (st : LoopState), st.client.telnet_state = 0 →
      st.client.buffer_len + p.length ≤ 1023 → (∀ c ∈ p, isprint c = true) →
      recv_loop now ts stack i (p ++ rest) st =
        recv_loop now ts stack (i + p.length) rest
          { client := p.foldl push_byte st.client
            events := st.events ++ p.map (fun c => Event.send st.client.sockfd [c])
            handed := st.handed ++ List.range' i p.length } := by
  induction p with
  | nil => intro i st _ _ _; simp
  | cons c p ih =>
    intro i st hs hcap hp
    simp only [List.length_cons, Nat.cast_add, Nat.cast_one] at hcap
    rw [List.cons_append,
      recv_loop_push now ts stack i c (p ++ rest) st hs (hp c (by simp)) (by omega)]
    rw [ih (i + 1) _ (by simp [push_byte, hs]) (by simp [push_byte]; omega)
      (fun d hd => hp d (by simp [hd]))]
    simp [push_byte, List.range'_succ, Nat.add_assoc, Nat.add_comm 1]

theorem cstr_terminated (w rest : List Nat) (h : ∀ c ∈ w, c ≠ 0) :
    cstr (w ++ 0 :: rest) = some w := by
  unfold cstr
  rw [if_pos (by simp)]
  congr 1
  induction w with
  | nil => simp
  | cons c w ih =>
    have hc : c ≠ 0 := h c (by simp)
    simp only [List.cons_append, List.takeWhile_cons, hc, ne_eq, not_false_eq_true, decide_True,
      if_true]
    rw [ih (fun d hd => h d (by simp [hd]))]

/-- The C string found in the line buffer once the terminator is written at `buffer_len`. -/
theorem cstr_line (client : telnet_client_t) (h0 : 0 ≤ client.buffer_len)
    (hlt : client.buffer_len < client.buffer.length) (hnz : ∀ c ∈ line_of client, c ≠ 0) :
    cstr (client.buffer.set client.buffer_len.toNat 0) = some (line_of client) := by
  have hn : client.buffer_len.toNat < client.buffer.length := by omega
  have hset : client.buffer.set client.buffer_len.toNat 0 =
      client.buffer.take client.buffer_len.toNat ++
        0 :: client.buffer.drop (client.buffer_len.toNat + 1) := by
    rw [List.set_eq_take_append_cons_drop]; simp [hn]
  rw [hset]
  exact cstr_terminated _ _ hnz

/-- The call of `sscanf` on a line that is one word without white space. -/
theorem sscanf_one_word (w : List Nat) (stk : Stack) (hne : w ≠ [])
    (hns : ∀ c ∈ w, isspace c = false) (hlen : w.length < 128) :
    sscanf_cmd_arg w stk = some (1, w ++ 0 :: stk.cmd.drop (w.length + 1), stk.arg) := by
  have hdrop : w.dropWhile isspace = w := by
    cases w with
    | nil => exact absurd rfl hne
    | cons c w => simp [List.dropWhile_cons, hns c (by simp)]
  have htake : w.takeWhile (fun c => !isspace c) = w := by
    rw [List.takeWhile_eq_self_iff]
    intro c hc; simp [hns c hc]
  have hdrop2 : w.dropWhile (fun c => !isspace c) = [] := by
    rw [List.dropWhile_eq_nil_iff]
    intro c hc; simp [hns c hc]
  unfold sscanf_cmd_arg
  simp only [hdrop, htake, hdrop2, hne, if_false, store]
  rw [if_pos (by omega)]
  simp

theorem letter_of_tolower (c : Nat) (h : tolower c ∈ [113, 117, 105, 116, 101, 120]) :
    65 ≤ c ∧ c ≤ 122 := by
  unfold tolower at h
  simp only [List.mem_cons, List.mem_singleton, List.not_mem_nil, or_false] at h
  split_ifs at h <;> omega

/-- The words that read `quit` or `exit` once case-folded are four letters. -/
theorem quit_word (w : List Nat)
    (h : w.map tolower = bytes "quit" ∨ w.map tolower = bytes "exit") :
    w.length = 4 ∧ ∀ c ∈ w, 65 ≤ c ∧ c ≤ 122 := by
  constructor
  · rcases h with h | h <;>
    · have := congrArg List.length h
      simpa [bytes] using this
  · intro c hc
    apply letter_of_tolower
    have hm : tolower c ∈ w.map tolower := List.mem_map_of_mem _ hc
    rcases h with h | h
    · rw [h] at hm
      have hb : bytes "quit" = [113, 117, 105, 116] := by decide
      rw [hb] at hm
      simp only [List.mem_cons, List.mem_singleton, List.not_mem_nil, or_false] at hm ⊢
      omega
    · rw [h] at hm
      have hb : bytes "exit" = [101, 120, 105, 116] := by decide
      rw [hb] at hm
      simp only [List.mem_cons, List.mem_singleton, List.not_mem_nil, or_false] at hm ⊢
      omega

/-- The dispatcher on a line that is the word `quit` or `exit` in any letter case. -/
theorem command_proc_quit (now : Int) (ts : List Nat) (stk : Stack) (client : telnet_client_t)
    (w : List Nat) (h : w.map tolower = bytes "quit" ∨ w.map tolower = bytes "exit") :
    telnets_command_proc now ts stk client w =
      some ({ client with closed := 1 }, [Event.send client.sockfd bye_msg]) := by
  obtain ⟨hlen, hletter⟩ := quit_word w h
  have hne : w ≠ [] := by intro h0; rw [h0] at hlen; simp at hlen
  have hns : ∀ c ∈ w, isspace c = false := by
    intro c hc
    have := hletter c hc
    simp only [isspace, Bool.decide_or, Bool.decide_and, Bool.or_eq_false_iff,
      decide_eq_false_iff_not, Bool.and_eq_false_iff]
    omega
  have hnz : ∀ c ∈ w, c ≠ 0 := fun c hc => by have := hletter c hc; omega
  unfold telnets_command_proc
  rw [sscanf_one_word w stk hne hns (by omega)]
  simp only [cstr_terminated w _ hnz]
  rcases h with h | h <;> rw [h] <;>
    rw [if_neg (by decide), if_neg (by decide), if_neg (by decide), if_neg (by decide),
      if_neg (by decide), if_pos (by decide)]

/-- The loop on a line terminator. -/
theorem recv_loop_terminator (now : Int) (ts : List Nat) (stack : Nat → Stack) (i t : Nat)
    (rest : List Nat) (st : LoopState) (hs : st.client.telnet_state = 0)
    (ht : t = 13 ∨ t = 10) :
    recv_loop now ts stack i (t :: rest) st =
      match on_terminator now ts (stack i) { st with handed := st.handed ++ [i] } with
      | none => none
      | some st1 =>
        if st1.client.closed ≠ 0 then some (st1, true)
        else recv_loop now ts stack (i + 1) rest st1 := by
  have ht1 : t ≠ 127 := by omega
  have ht2 : t ≠ 8 := by omega
  simp only [recv_loop, hs, ne_eq, not_true_eq_false, if_false, ht1, ht2, or_self, ht, if_true]

/-- The terminator after a line that is `quit` or `exit` in any letter case: CR LF, the
farewell, the close flag set, the line cleared. -/
theorem on_terminator_quit (now : Int) (ts : List Nat) (stk : Stack) (st : LoopState)
    (h0 : 0 < st.client.buffer_len) (hlt : st.client.buffer_len < st.client.buffer.length)
    (hw : (line_of st.client).map tolower = bytes "quit" ∨
      (line_of st.client).map tolower = bytes "exit") :
    on_terminator now ts stk st =
      some { client := { st.client with
                          buffer := List.replicate TELNET_BUFFER_SIZE 0
                          buffer_len := 0
                          closed := 1 }
             events := st.events ++ [Event.send st.client.sockfd (bytes "\r\n"),
               Event.send st.client.sockfd bye_msg]
             handed := st.handed } := by
  have hnz : ∀ c ∈ line_of st.client, c ≠ 0 := fun c hc => by
    have := (quit_word _ hw).2 c hc; omega
  unfold on_terminator
  simp only [gt_iff_lt, h0, if_true]
  rw [cstr_line st.client (le_of_lt h0) hlt hnz]
  simp only [command_proc_call, command_proc_quit now ts stk _ _ hw]

/-- A read that starts, on an empty line in state `NORMAL`, with `quit` or `exit` in any
letter case and a line terminator: the result does not depend on the bytes `s` that follow. -/
theorem recv_quit_line (now : Int) (ts : List Nat) (stack : Nat → Stack)
    (server : telnet_server_t) (idx : Int) (client : telnet_client_t) (w : List Nat) (t : Nat)
    (s : List Nat)
    (hslot : client_at server idx = some client) (hidx : idx < server.max_clients)
    (hstate : client.telnet_state = 0) (hlen : client.buffer_len = 0)
    (hbuf : client.buffer.length = TELNET_BUFFER_SIZE)
    (hw : w.map tolower = bytes "quit" ∨ w.map tolower = bytes "exit")
    (ht : t = 13 ∨ t = 10) (hs : ∀ c ∈ s, c ≠ TELNET_IAC) :
    telnets_recv_data_proc now ts stack server idx (Recv.received (w ++ t :: s)) =
      some { server := { server with clients := server.clients.set idx.toNat none }
             events := w.map (fun c => Event.send client.sockfd [c]) ++
               [Event.send client.sockfd (bytes "\r\n"), Event.send client.sockfd bye_msg,
                 Event.close client.sockfd]
             handed := List.range (w.length + 1) } := by
  obtain ⟨hidx0, hidxlt⟩ := client_at_lt hslot
  obtain ⟨hwlen, hletter⟩ := quit_word w hw
  have hprint : ∀ c ∈ w, isprint c = true := by
    intro c hc
    have := hletter c hc
    rw [isprint_iff]; omega
  have hrun : filter_run client.telnet_state (w ++ t :: s) = 0 := by
    rw [hstate]
    apply filter_run_no_lead
    intro c hc
    rcases List.mem_append.1 hc with h | h
    · have := hletter c h
      simp only [TELNET_IAC]; omega
    · rcases List.mem_cons.1 h with h | h
      · simp only [TELNET_IAC]; omega
      · exact hs c h
  obtain ⟨cl, hcl⟩ : ∃ cl : telnet_client_t,
      cl = { client with last_active := now, telnet_state := 0 } := ⟨_, rfl⟩
  have hcl_len : cl.buffer_len = 0 := by rw [hcl]; exact hlen
  have hcl_buf : cl.buffer.length = 1024 := by rw [hcl]; exact hbuf
  have hcl_sock : cl.sockfd = client.sockfd := by rw [hcl]
  have hcl_st : cl.telnet_state = 0 := by rw [hcl]
  obtain ⟨pc, hpc⟩ : ∃ pc : telnet_client_t, pc = w.foldl push_byte cl := ⟨_, rfl⟩
  have hfields := foldl_push_byte_fields w cl
  rw [← hpc] at hfields
  have hplen : pc.buffer_len = 4 := by
    rw [hfields]; simp [hcl_len, hwlen]
  have hpbuf : pc.buffer.length = 1024 := by
    rw [hpc, foldl_push_byte_length]; exact hcl_buf
  have hline : line_of pc = w := by
    rw [hpc, line_of_foldl_push_byte w cl (by omega) (by rw [hcl_len, hcl_buf, hwlen]; decide)]
    simp [line_of, hcl_len]
  have hsock : pc.sockfd = client.sockfd := by rw [hfields]; exact hcl_sock
  have hst : pc.telnet_state = 0 := by rw [hfields]; exact hcl_st
  have hloop : recv_loop now ts stack 0 (w ++ t :: s)
      { client := cl, events := [], handed := [] } =
      some ({ client := { pc with
                          buffer := List.replicate TELNET_BUFFER_SIZE 0
                          buffer_len := 0
                          closed := 1 }
              events := w.map (fun c => Event.send client.sockfd [c]) ++
                [Event.send client.sockfd (bytes "\r\n"), Event.send client.sockfd bye_msg]
              handed := List.range (w.length + 1) }, true) := by
    rw [recv_loop_printable_then now ts stack w (t :: s) 0 _ hcl_st
      (by rw [hcl_len, hwlen]; decide) hprint, ← hpc]
    rw [recv_loop_terminator now ts stack _ t s _ hst ht]
    rw [on_terminator_quit now ts _ _ (by rw [hplen]; decide) (by rw [hplen, hpbuf]; decide)
      (by rw [hline]; exact hw)]
    simp [hcl_sock, hsock, List.range_eq_range', List.range'_concat, hwlen]
  rw [recv_data_proc_received now ts stack server idx client _ hslot (by simp), hrun, ← hcl,
    hloop]
  have hg : ¬ (idx < 0 ∨ idx ≥ server.max_clients) := by omega
  simp only [if_true, telnets_remove_client, hg, if_false,
    client_at_set_self server idx _ hidx0 hidxlt, List.set_set, hsock]
  simp

/-- C10: on an empty line in state `NORMAL`, a single read of `quit` or `exit` (any letter
case), a CR or LF, and any further bytes `s` without `0xFF` writes to the client the echo of
the four letters, then CR LF, then the farewell, and then releases the slot; the bytes of `s`
are not handed to the line rules and change nothing: the result is that of the read without
them. -/
theorem C10_quit_stops_read (now : Int) (ts : List Nat) (stack : Nat → Stack)
    (server : telnet_server_t) (idx : Int) (client : telnet_client_t) (w : List Nat) (t : Nat)
    (s : List Nat)
    (hok : server_ok server) (hslot : client_at server idx = some client)
    (hstate : client.telnet_state = 0) (hlen : client.buffer_len = 0)
    (hbuf : client.buffer.length = TELNET_BUFFER_SIZE)
    (hw : w.map tolower = bytes "quit" ∨ w.map tolower = bytes "exit")
    (ht : t = 13 ∨ t = 10) (hs : ∀ c ∈ s, c ≠ 0xFF) :
    ∃ r, telnets_recv_data_proc now ts stack server idx (Recv.received (w ++ t :: s)) = some r ∧
      r.events = w.map (fun c => Event.send client.sockfd [c]) ++
        [Event.send client.sockfd (bytes "\r\n"), Event.send client.sockfd (bytes "\r\nGoodbye!\r\n"),
          Event.close client.sockfd] ∧
      sent_to client.sockfd r.events = w ++ bytes "\r\n" ++ bytes "\r\nGoodbye!\r\n" ∧
      client_at r.server idx = none ∧
      (∀ j : Int, j ≠ idx → client_at r.server j = client_at server j) ∧
      same_header r.server server ∧
      r.handed = List.range (w.length + 1) ∧
      telnets_recv_data_proc now ts stack server idx (Recv.received (w ++ t :: s)) =
        telnets_recv_data_proc now ts stack server idx (Recv.received (w ++ [t])) := by
  obtain ⟨hidx0, hidxlt⟩ := client_at_lt hslot
  have hidx : idx < server.max_clients := by
    rw [hok.1]
    rw [hok.2] at hidxlt
    omega
  have hmain := recv_quit_line now ts stack server idx client w t s hslot hidx hstate hlen hbuf
    hw ht hs
  have hnil := recv_quit_line now ts stack server idx client w t [] hslot hidx hstate hlen hbuf
    hw ht (by simp)
  refine ⟨_, hmain, rfl, ?_, ?_, ?_, ?_, rfl, ?_⟩
  · have hsplit : ∀ (l : List Nat) (tail : List Event),
        sent_to client.sockfd (l.map (fun c => Event.send client.sockfd [c]) ++ tail) =
          l ++ sent_to client.sockfd tail := by
      intro l tail
      induction l with
      | nil => rfl
      | cons c l ih => simp [sent_to, ih]
    rw [hsplit]
    simp [sent_to, bye_msg]
  · exact client_at_set_self server idx none hidx0 hidxlt
  · intro j hj
    exact client_at_set_ne server idx j none hidx0 (fun h => hj h.symm)
  · exact ⟨rfl, rfl, rfl, rfl, rfl⟩
  · rw [hmain, hnil]

/-- C10 at the fresh record of `one_client_server`: the read `QuIt` CR `help` CR. -/
theorem C10_quit_stops_read_witness :
    ∃ r, telnets_recv_data_proc 101 [] zero_stack one_client_server 0
        (Recv.received (bytes "QuIt" ++ 13 :: bytes "help\r")) = some r ∧
      sent_to 4 r.events = bytes "QuIt\r\n\r\nGoodbye!\r\n" ∧
      client_at r.server 0 = none :=
  match C10_quit_stops_read 101 [] zero_stack one_client_server 0 (new_client 100 4 peer)
      (bytes "QuIt") 13 (bytes "help\r") ⟨rfl, rfl⟩ rfl rfl rfl (List.length_replicate _ _)
      (by decide) (by decide) (by decide) with
  | ⟨r, h1, _, h3, h4, _⟩ => ⟨r, h1, h3.trans (by decide), h4⟩

/-! ## Receive handling: which bytes reach the line rules -/

/-- When the filter state after the chunk is not `NORMAL`, the second loop skips every byte
of the chunk. -/
theorem recv_loop_blocked (now : Int) (ts : List Nat) (stack : Nat → Stack) (data : List Nat) :
    ∀ (i : Nat) (st : LoopState), st.client.telnet_state ≠ 0 →
      recv_loop now ts stack i data st = some (st, false) := by
  induction data with
  | nil => intro i st _; rfl
  | cons c rest ih =>
    intro i st h
    rw [recv_loop, if_pos h]
    exact ih (i + 1) st h

/-- C1 (the code departs from it): the test `client->telnet_state != 0` of the second loop
reads the state reached after the whole chunk.  On the chunk `'a' 0xFF` received in state
`NORMAL` with an empty line, the byte `'a'` (state before it `NORMAL`, not the lead byte) is
not handed to the line rules and is lost; on the chunk `0xFF 0xFB 'A'` the option byte `'A'`
(state before it `AWAIT_OPTION`) is handed to them, echoed and buffered.  In general the loop
skips the whole chunk whenever the state after the chunk is not `NORMAL`. -/
theorem C1_line_rules_follow_final_state :
    (∀ (now : Int) (ts : List Nat) (stack : Nat → Stack) (data : List Nat) (st : LoopState),
        st.client.telnet_state ≠ 0 → recv_loop now ts stack 0 data st = some (st, false)) ∧
    (client_at one_client_server 0).map (fun c => (c.sockfd, c.telnet_state, c.buffer_len))
        = some (4, 0, 0) ∧
      (filter_run 0 (List.take 0 [97, 255]) = 0 ∧ (97 : Nat) ≠ TELNET_IAC ∧
        (telnets_recv_data_proc 101 [] zero_stack one_client_server 0
            (Recv.received [97, 255])).map (fun r => (r.handed, observe 4 0 r))
          = some ([], (some ([], 0, 1, 0), []))) ∧
      (filter_run 0 (List.take 2 [255, 251, 65]) = 2 ∧
        (telnets_recv_data_proc 101 [] zero_stack one_client_server 0
            (Recv.received [255, 251, 65])).map (fun r => (r.handed, observe 4 0 r))
          = some ([0, 1, 2], (some ([65], 1, 0, 0), [65]))) :=
  ⟨fun now ts stack data st h => recv_loop_blocked now ts stack data 0 st h,
    rfl, ⟨rfl, by decide, rfl⟩, rfl, rfl⟩

/-- C3 (the code departs from it): with `a = 'a' 0xFF` and `b = 'b'`, received in state
`NORMAL` with an empty line, the two reads `a`, `b` leave the line `b` and echo `b` (the
`'a'` of the first read is lost), while the single read `a ++ b` leaves the line `ab` and
echoes `ab`. -/
theorem C3_split_read_loses_partial_line :
    ((telnets_recv_data_proc 101 [] zero_stack one_client_server 0
          (Recv.received [97, 255])).map (fun r => observe 4 0 r)
        = some (some ([], 0, 1, 0), [])) ∧
      ((telnets_recv_data_proc 101 [] zero_stack one_client_server 0
          (Recv.received [97, 255])).bind (fun r1 =>
            (telnets_recv_data_proc 102 [] zero_stack r1.server 0
              (Recv.received [98])).map (fun r2 =>
                ((observe 4 0 r2).1, sent_to 4 (r1.events ++ r2.events))))
        = some (some ([98], 1, 0, 0), [98])) ∧
      ((telnets_recv_data_proc 101 [] zero_stack one_client_server 0
          (Recv.received ([97, 255] ++ [98]))).map (fun r => observe 4 0 r)
        = some (some ([97, 98], 2, 0, 0), [97, 98])) :=
  ⟨rfl, rfl, rfl⟩

/-- C5 (the code departs from it): the two bytes `0xFF 0xFF` received in one read in state
`NORMAL` return the filter to `NORMAL`, and both bytes (indices 0 and 1) are handed to the
line rules, not exactly one of them. -/
theorem C5_doubled_lead_hands_both_bytes :
    (telnets_recv_data_proc 101 [] zero_stack one_client_server 0
        (Recv.received [255, 255])).map (fun r => (r.handed, observe 4 0 r))
      = some ([0, 1], (some ([], 0, 0, 0), [])) :=
  rfl

/-! ## Editing bytes and receive failure -/

theorem filter_run_single (c : Nat) (h : c ≠ TELNET_IAC) : filter_run 0 [c] = 0 :=
  filter_run_no_lead [c] (fun d hd => by simpa [List.mem_singleton.1 hd] using h)

/-- The loop on a backspace or delete byte. -/
theorem recv_loop_backspace (now : Int) (ts : List Nat) (stack : Nat → Stack) (i c : Nat)
    (rest : List Nat) (st : LoopState) (hs : st.client.telnet_state = 0)
    (hc : c = 8 ∨ c = 127) :
    recv_loop now ts stack i (c :: rest) st =
      if st.client.buffer_len > 0 then
        recv_loop now ts stack (i + 1) rest
          { client := { st.client with buffer_len := st.client.buffer_len - 1 }
            events := st.events ++ [Event.send st.client.sockfd (bytes "\x08 \x08")]
            handed := st.handed ++ [i] }
      else recv_loop now ts stack (i + 1) rest { st with handed := st.handed ++ [i] } := by
  have hc1 : c = 127 ∨ c = 8 := hc.symm
  simp only [recv_loop, hs, ne_eq, not_true_eq_false, if_false, hc1, if_true]

/-- C11: in state `NORMAL`, a read of the single byte `0x08` or `0x7F` decreases
`buffer_len` by one, dropping the last character of the line, and writes exactly `\b \b`
when `buffer_len > 0`; it changes nothing and writes nothing when `buffer_len = 0`.  Either
way the buffer bytes, the filter state and the close flag are as before and the record
stays in its slot (nothing is dispatched). -/
theorem C11_backspace_rule (now : Int) (ts : List Nat) (stack : Nat → Stack)
    (server : telnet_server_t) (idx : Int) (client : telnet_client_t) (c : Nat)
    (hslot : client_at server idx = some client) (hstate : client.telnet_state = 0)
    (hc : c = 8 ∨ c = 127) :
    ∃ r c1, telnets_recv_data_proc now ts stack server idx (Recv.received [c]) = some r ∧
      client_at r.server idx = some c1 ∧
      (0 < client.buffer_len →
        c1.buffer_len = client.buffer_len - 1 ∧
        r.events = [Event.send client.sockfd [8, 32, 8]] ∧
        (client.buffer_len ≤ client.buffer.length → line_of c1 = (line_of client).dropLast)) ∧
      (client.buffer_len = 0 →
        c1.buffer_len = 0 ∧ line_of c1 = line_of client ∧ r.events = []) ∧
      c1.buffer = client.buffer ∧ c1.closed = client.closed ∧ c1.telnet_state = 0 ∧
      c1.sockfd = client.sockfd ∧ r.handed = [0] := by
  obtain ⟨hidx0, hidxlt⟩ := client_at_lt hslot
  have hrun : filter_run client.telnet_state [c] = 0 := by
    rw [hstate]; apply filter_run_single; simp only [TELNET_IAC]; omega
  by_cases hpos : 0 < client.buffer_len
  · have hloop : recv_loop now ts stack 0 [c]
        { client := { client with last_active := now, telnet_state := 0 }
          events := [], handed := [] } =
        some ({ client := { client with
                            last_active := now, telnet_state := 0
                            buffer_len := client.buffer_len - 1 }
                events := [Event.send client.sockfd (bytes "\x08 \x08")]
                handed := [0] }, false) := by
      rw [recv_loop_backspace now ts stack 0 c [] _ rfl hc]
      simp only [gt_iff_lt, hpos, if_true, recv_loop, List.nil_append]
    have hr := recv_data_proc_of_loop now ts stack server idx client [c] _ hslot (by simp)
      (by rw [hrun]; exact hloop)
    refine ⟨_, _, hr, client_at_set_self server idx _ hidx0 hidxlt, ?_, ?_, rfl, rfl, rfl, rfl,
      rfl⟩
    · intro _
      refine ⟨rfl, rfl, ?_⟩
      intro hle
      have h1 : (client.buffer_len - 1).toNat = client.buffer_len.toNat - 1 := by omega
      simp only [line_of, h1]
      rw [List.dropLast_eq_take, List.take_take, List.length_take]
      congr 1
      omega
    · intro h0; omega
  · have hloop : recv_loop now ts stack 0 [c]
        { client := { client with last_active := now, telnet_state := 0 }
          events := [], handed := [] } =
        some ({ client := { client with last_active := now, telnet_state := 0 }
                events := [], handed := [0] }, false) := by
      rw [recv_loop_backspace now ts stack 0 c [] _ rfl hc]
      simp only [gt_iff_lt, hpos, if_false, recv_loop, List.nil_append]
    have hr := recv_data_proc_of_loop now ts stack server idx client [c] _ hslot (by simp)
      (by rw [hrun]; exact hloop)
    refine ⟨_, _, hr, client_at_set_self server idx _ hidx0 hidxlt, ?_, ?_, rfl, rfl, rfl, rfl,
      rfl⟩
    · intro h; exact absurd h hpos
    · intro h0
      exact ⟨h0, rfl, rfl⟩

/-- C11 at a record holding the line `hi`: a delete byte leaves the line `h`. -/
theorem C11_backspace_rule_witness :
    ∃ r c1, telnets_recv_data_proc 102 [] zero_stack
        { one_client_server with clients :=
            [some { new_client 100 4 peer with
                    buffer := 104 :: 105 :: List.replicate 1022 0, buffer_len := 2 },
              none, none, none, none] } 0 (Recv.received [127]) = some r ∧
      client_at r.server 0 = some c1 ∧ c1.buffer_len = 1 ∧
      r.events = [Event.send 4 [8, 32, 8]] :=
  match C11_backspace_rule 102 [] zero_stack
      { one_client_server with clients :=
          [some { new_client 100 4 peer with
                  buffer := 104 :: 105 :: List.replicate 1022 0, buffer_len := 2 },
            none, none, none, none] } 0
      { new_client 100 4 peer with
        buffer := 104 :: 105 :: List.replicate 1022 0, buffer_len := 2 }
      127 rfl rfl (by decide) with
  | ⟨r, c1, h1, h2, h3, _⟩ => ⟨r, c1, h1, h2, (h3 (by decide)).1, (h3 (by decide)).2.1⟩

/-- C16: on an occupied slot, a `recv` that fails or returns zero bytes makes
`telnets_recv_data_proc` close the record's descriptor and empty the slot; nothing is sent,
no byte is handed to the line rules, and every other slot and member of the server is
unchanged. -/
theorem C16_receive_failure_releases (now : Int) (ts : List Nat) (stack : Nat → Stack)
    (server : telnet_server_t) (idx : Int) (client : telnet_client_t) (rx : Recv)
    (hok : server_ok server) (hslot : client_at server idx = some client)
    (hrx : rx = Recv.failed ∨ rx = Recv.received []) :
    ∃ r, telnets_recv_data_proc now ts stack server idx rx = some r ∧
      r.events = [Event.close client.sockfd] ∧
      r.handed = [] ∧
      client_at r.server idx = none ∧
      (∀ j : Int, j ≠ idx → client_at r.server j = client_at server j) ∧
      same_header r.server server := by
  obtain ⟨hidx0, hidxlt⟩ := client_at_lt hslot
  have hidx : ¬ (idx < 0 ∨ idx ≥ server.max_clients) := by
    rw [hok.1]
    rw [hok.2] at hidxlt
    omega
  have hbytes : bytes_received rx ≤ 0 := by
    rcases hrx with h | h <;> rw [h] <;> decide
  have hr : telnets_recv_data_proc now ts stack server idx rx =
      some { server := { server with clients := server.clients.set idx.toNat none }
             events := [Event.close client.sockfd], handed := [] } := by
    simp only [telnets_recv_data_proc, hslot, hbytes, if_true, telnets_remove_client, hidx,
      if_false]
  refine ⟨_, hr, rfl, rfl, client_at_set_self server idx none hidx0 hidxlt, ?_,
    ⟨rfl, rfl, rfl, rfl, rfl⟩⟩
  intro j hj
  exact client_at_set_ne server idx j none hidx0 (fun h => hj h.symm)

/-- C16 at `one_client_server`: a failed `recv` on slot 0. -/
theorem C16_receive_failure_releases_witness :
    ∃ r, telnets_recv_data_proc 101 [] zero_stack one_client_server 0 Recv.failed = some r ∧
      r.events = [Event.close 4] ∧ client_at r.server 0 = none :=
  match C16_receive_failure_releases 101 [] zero_stack one_client_server 0
      (new_client 100 4 peer) Recv.failed ⟨rfl, rfl⟩ rfl (Or.inl rfl) with
  | ⟨r, h1, h2, _, h4, _⟩ => ⟨r, h1, h2, h4⟩

/-! ## Printable bytes and the capacity of the line -/

/-- The loop on a byte that is not an editing byte while the line is full: the byte is
handed to the line rules and dropped. -/
theorem recv_loop_no_room (now : Int) (ts : List Nat) (stack : Nat → Stack) (i c : Nat)
    (rest : List Nat) (st : LoopState) (hs : st.client.telnet_state = 0)
    (h1 : c ≠ 127) (h2 : c ≠ 8) (h3 : c ≠ 13) (h4 : c ≠ 10)
    (hfull : 1023 ≤ st.client.buffer_len) :
    recv_loop now ts stack i (c :: rest) st =
      recv_loop now ts stack (i + 1) rest { st with handed := st.handed ++ [i] } := by
  have hroom : ¬ st.client.buffer_len < (TELNET_BUFFER_SIZE : Int) - 1 := by
    simp only [TELNET_BUFFER_SIZE]; omega
  simp [recv_loop, hs, h1, h2, h3, h4, hroom]

/-- The loop on a run of printable bytes while the line is full. -/
theorem recv_loop_full (now : Int) (ts : List Nat) (stack : Nat → Stack) (p : List Nat) :
    ∀ (i : Nat) (st : LoopState), st.client.telnet_state = 0 → 1023 ≤ st.client.buffer_len →
      (∀ c ∈ p, isprint c = true) →
      recv_loop now ts stack i p st =
        some ({ st with handed := st.handed ++ List.range' i p.length }, false) := by
  induction p with
  | nil => intro i st _ _ _; simp [recv_loop]
  | cons c p ih =>
    intro i st hs hfull hp
    have hc := (isprint_iff c).1 (hp c (by simp))
    rw [recv_loop_no_room now ts stack i c p st hs (by omega) (by omega) (by omega) (by omega)
      hfull]
    rw [ih (i + 1) _ (by exact hs) (by exact hfull) (fun d hd => hp d (by simp [hd]))]
    simp [List.range'_succ]

/-- C19: in state `NORMAL` with `0 ≤ buffer_len = n ≤ 1023`, a read of a chunk `p` of
printable bytes leaves the line as the old line followed by the first `min |p| (1023 - n)`
bytes of `p`, echoes exactly those bytes, one `send` each and in order, and drops the rest
without output.  A byte that is not printable and not backspace, delete, CR or LF changes
neither the record nor the output wherever it stands in a chunk. -/
theorem C19_printable_append_cutoff (now : Int) (ts : List Nat) (stack : Nat → Stack)
    (server : telnet_server_t) (idx : Int) (client : telnet_client_t) (p : List Nat)
    (hslot : client_at server idx = some client) (hstate : client.telnet_state = 0)
    (hbuf : client.buffer.length = TELNET_BUFFER_SIZE)
    (h0 : 0 ≤ client.buffer_len) (hn : client.buffer_len ≤ 1023)
    (hne : p ≠ []) (hp : ∀ c ∈ p, 0x20 ≤ c ∧ c ≤ 0x7E) :
    (∃ r c1, telnets_recv_data_proc now ts stack server idx (Recv.received p) = some r ∧
      client_at r.server idx = some c1 ∧
      line_of c1 = line_of client ++ p.take (min p.length (1023 - client.buffer_len.toNat)) ∧
      c1.buffer_len = client.buffer_len + min p.length (1023 - client.buffer_len.toNat) ∧
      r.events = (p.take (min p.length (1023 - client.buffer_len.toNat))).map
        (fun c => Event.send client.sockfd [c]) ∧
      sent_to client.sockfd r.events = p.take (min p.length (1023 - client.buffer_len.toNat)) ∧
      c1.telnet_state = 0 ∧ c1.closed = client.closed) ∧
    (∀ (i c : Nat) (rest : List Nat) (st : LoopState),
      isprint c = false → c ≠ 8 → c ≠ 127 → c ≠ 13 → c ≠ 10 →
      ∃ h, recv_loop now ts stack i (c :: rest) st =
        recv_loop now ts stack (i + 1) rest { st with handed := h }) := by
  constructor
  · obtain ⟨hidx0, hidxlt⟩ := client_at_lt hslot
    have hprint : ∀ c ∈ p, isprint c = true := fun c hc => (isprint_iff c).2 (hp c hc)
    have hrun : filter_run client.telnet_state p = 0 := by
      rw [hstate]
      apply filter_run_no_lead
      intro c hc
      have := hp c hc
      simp only [TELNET_IAC]; omega
    obtain ⟨k, hk⟩ : ∃ k, k = min p.length (1023 - client.buffer_len.toNat) := ⟨_, rfl⟩
    rw [← hk]
    have hklen : (p.take k).length = k := by
      rw [List.length_take]; omega
    obtain ⟨cl, hcl⟩ : ∃ cl : telnet_client_t,
        cl = { client with last_active := now, telnet_state := 0 } := ⟨_, rfl⟩
    have hcl_len : cl.buffer_len = client.buffer_len := by rw [hcl]
    have hcl_buf : cl.buffer.length = 1024 := by rw [hcl]; exact hbuf
    have hcl_st : cl.telnet_state = 0 := by rw [hcl]
    have hcl_line : line_of cl = line_of client := by rw [hcl]; rfl
    obtain ⟨pc, hpc⟩ : ∃ pc : telnet_client_t, pc = (p.take k).foldl push_byte cl := ⟨_, rfl⟩
    have hfields := foldl_push_byte_fields (p.take k) cl
    rw [← hpc, hklen] at hfields
    have hplen : pc.buffer_len = client.buffer_len + k := by rw [hfields]; simp [hcl_len]
    have hpst : pc.telnet_state = 0 := by rw [hfields]; exact hcl_st
    have hpline : line_of pc = line_of client ++ p.take k := by
      rw [hpc, line_of_foldl_push_byte (p.take k) cl (by omega)
        (by rw [hklen, hcl_len, hcl_buf]; omega), hcl_line]
    have hloop : recv_loop now ts stack 0 p { client := cl, events := [], handed := [] } =
        some ({ client := pc
                events := (p.take k).map (fun c => Event.send client.sockfd [c])
                handed := List.range' 0 k ++ List.range' (0 + k) (p.drop k).length }, false) := by
      conv_lhs => rw [← List.take_append_drop k p]
      rw [recv_loop_printable_then now ts stack (p.take k) (p.drop k) 0 _ hcl_st
        (by rw [hklen, hcl_len]; omega) (fun c hc => hprint c (List.mem_of_mem_take hc)),
        ← hpc, hklen]
      by_cases hrest : p.drop k = []
      · rw [hrest]
        simp [recv_loop, hcl]
      · have hfull : 1023 ≤ pc.buffer_len := by
          rw [hplen]
          have : k < p.length := by
            by_contra hge
            exact hrest (List.drop_eq_nil_of_le (by omega))
          omega
        rw [recv_loop_full now ts stack (p.drop k) _ _ hpst hfull
          (fun c hc => hprint c (List.mem_of_mem_drop hc))]
        simp [hcl]
    have hr := recv_data_proc_of_loop now ts stack server idx client p _ hslot hne
      (by rw [hrun, ← hcl]; exact hloop)
    refine ⟨_, pc, hr, client_at_set_self server idx _ hidx0 hidxlt, hpline, ?_, rfl, ?_, hpst,
      ?_⟩
    · rw [hplen]
    · exact sent_to_echo client.sockfd (p.take k)
    · rw [hfields, hcl]
  · intro i c rest st hnp h8 h127 h13 h10
    by_cases hs : st.client.telnet_state = 0
    · exact ⟨st.handed ++ [i],
        recv_loop_dropped now ts stack i c rest st hs h127 h8 h13 h10 hnp⟩
    · refine ⟨st.handed, ?_⟩
      rw [recv_loop, if_pos hs]

/-- C19 at a record whose line holds 1022 bytes: of the chunk `ab` only `a` is accepted. -/
theorem C19_printable_append_cutoff_witness :
    ∃ r c1, telnets_recv_data_proc 102 [] zero_stack
        { one_client_server with clients :=
            [some { new_client 100 4 peer with
                    buffer := List.replicate 1024 120, buffer_len := 1022 },
              none, none, none, none] } 0 (Recv.received [97, 98]) = some r ∧
      client_at r.server 0 = some c1 ∧ c1.buffer_len = 1023 ∧
      r.events = [Event.send 4 [97]] :=
  match (C19_printable_append_cutoff 102 [] zero_stack
      { one_client_server with clients :=
          [some { new_client 100 4 peer with
                  buffer := List.replicate 1024 120, buffer_len := 1022 },
            none, none, none, none] } 0
      { new_client 100 4 peer with buffer := List.replicate 1024 120, buffer_len := 1022 }
      [97, 98] rfl rfl (List.length_replicate _ _) (by decide) (by decide) (by decide)
      (by decide)).1 with
  | ⟨r, c1, h1, h2, _, h4, h5, _⟩ => ⟨r, c1, h1, h2, h4, h5⟩

/-! ## Line terminators and the prompt -/

/-- The terminator on an empty line: the prompt, and nothing else happens. -/
theorem on_terminator_empty (now : Int) (ts : List Nat) (stk : Stack) (st : LoopState)
    (h : st.client.buffer_len = 0) :
    on_terminator now ts stk st =
      some { st with events := st.events ++ [Event.send st.client.sockfd prompt_msg] } := by
  have hn : ¬ st.client.buffer_len > 0 := by omega
  simp only [on_terminator, hn, if_false, telnets_send_prompt]

/-- C12 as stated fails: on a fresh record, the read CR LF writes the prompt twice, which is
not the prompt string alone. -/
theorem C12_bare_crlf_counterexample :
    (telnets_recv_data_proc 101 [] zero_stack one_client_server 0
        (Recv.received [13, 10])).map (fun r => sent_to 4 r.events)
      = some (bytes "\rwktx:##>\rwktx:##>") ∧
    bytes "\rwktx:##>\rwktx:##>" ≠ bytes "\rwktx:##>" :=
  ⟨rfl, by decide⟩

/-- C12, amended: in state `NORMAL` with an empty line and the close flag clear, a read of
the two bytes CR LF writes the prompt `\rwktx:##>` twice, once for each terminator byte, and
nothing else; no command is dispatched and the line buffer, `buffer_len`, the filter state
and the close flag are unchanged. -/
theorem C12_bare_crlf_prompts_twice (now : Int) (ts : List Nat) (stack : Nat → Stack)
    (server : telnet_server_t) (idx : Int) (client : telnet_client_t)
    (hslot : client_at server idx = some client) (hstate : client.telnet_state = 0)
    (hlen : client.buffer_len = 0) (hclosed : client.closed = 0) :
    ∃ r c1, telnets_recv_data_proc now ts stack server idx (Recv.received [13, 10]) = some r ∧
      r.events = [Event.send client.sockfd (bytes "\rwktx:##>"),
        Event.send client.sockfd (bytes "\rwktx:##>")] ∧
      sent_to client.sockfd r.events = bytes "\rwktx:##>" ++ bytes "\rwktx:##>" ∧
      client_at r.server idx = some c1 ∧
      c1 = { client with last_active := now } ∧
      r.handed = [0, 1] := by
  obtain ⟨hidx0, hidxlt⟩ := client_at_lt hslot
  have hrun : filter_run client.telnet_state [13, 10] = 0 := by rw [hstate]; rfl
  have hloop : recv_loop now ts stack 0 [13, 10]
      { client := { client with last_active := now, telnet_state := 0 }
        events := [], handed := [] } =
      some ({ client := { client with last_active := now, telnet_state := 0 }
              events := [Event.send client.sockfd prompt_msg,
                Event.send client.sockfd prompt_msg]
              handed := [0, 1] }, false) := by
    rw [recv_loop_terminator now ts stack 0 13 [10] _ rfl (Or.inl rfl),
      on_terminator_empty now ts _ _ hlen]
    simp only [hclosed, ne_eq, not_true_eq_false, if_false]
    rw [recv_loop_terminator now ts stack 1 10 [] _ rfl (Or.inr rfl),
      on_terminator_empty now ts _ _ hlen]
    simp only [hclosed, ne_eq, not_true_eq_false, if_false, recv_loop, List.nil_append,
      List.cons_append]
  have hr := recv_data_proc_of_loop now ts stack server idx client [13, 10] _ hslot (by simp)
    (by rw [hrun]; exact hloop)
  refine ⟨_, _, hr, rfl, ?_, client_at_set_self server idx _ hidx0 hidxlt, ?_, rfl⟩
  · simp [sent_to, prompt_msg]
  · simp [hstate]

/-- C12 (amended) at the fresh record of `one_client_server`. -/
theorem C12_bare_crlf_prompts_twice_witness :
    ∃ r c1, telnets_recv_data_proc 101 [] zero_stack one_client_server 0
        (Recv.received [13, 10]) = some r ∧
      r.events = [Event.send 4 (bytes "\rwktx:##>"), Event.send 4 (bytes "\rwktx:##>")] ∧
      client_at r.server 0 = some c1 ∧ c1.buffer_len = 0 :=
  match C12_bare_crlf_prompts_twice 101 [] zero_stack one_client_server 0
      (new_client 100 4 peer) rfl rfl rfl rfl with
  | ⟨r, c1, h1, h2, _, h4, h5, _⟩ => ⟨r, c1, h1, h2, h4, by rw [h5]; rfl⟩

/-! ## The prompt after a dispatched line -/

/-- The dispatcher reads the record's descriptor, address and timestamp only: on two records
that agree on these and on the close flag it makes the same `send` calls and leaves the same
close flag. -/
theorem command_proc_congr (now : Int) (ts : List Nat) (stk : Stack) (c c1 : telnet_client_t)
    (w : List Nat) (h1 : c.sockfd = c1.sockfd) (h2 : c.addr = c1.addr)
    (h3 : c.last_active = c1.last_active) (h4 : c.closed = c1.closed) :
    telnets_command_proc now ts stk c1 w =
      (telnets_command_proc now ts stk c w).map
        (fun r => ({ c1 with closed := r.1.closed }, r.2)) := by
  unfold telnets_command_proc
  rw [← h1, ← h2, ← h3]
  dsimp only
  repeat' split
  all_goals first
    | (simp [h4]; done)
    | (cases c1; cases c; simp_all)

/-- A call of the dispatcher that stays inside its arrays. -/
theorem command_proc_call_of_some (now : Int) (ts : List Nat) (stk : Stack)
    (c : telnet_client_t) (w : List Nat) (r : telnet_client_t × List Event)
    (h : telnets_command_proc now ts stk c w = some r) :
    command_proc_call now ts stk c w = r := by
  unfold command_proc_call
  rw [h]

/-- The call of the dispatcher on two records that agree on the descriptor, the address, the
timestamp and the close flag: the same `send` calls, the same close flag. -/
theorem command_proc_call_congr (now : Int) (ts : List Nat) (stk : Stack)
    (c c1 : telnet_client_t) (w : List Nat) (h1 : c.sockfd = c1.sockfd) (h2 : c.addr = c1.addr)
    (h3 : c.last_active = c1.last_active) (h4 : c.closed = c1.closed) :
    command_proc_call now ts stk c1 w =
      ({ c1 with closed := (command_proc_call now ts stk c w).1.closed },
        (command_proc_call now ts stk c w).2) := by
  unfold command_proc_call
  rw [command_proc_congr now ts stk c c1 w h1 h2 h3 h4]
  cases telnets_command_proc now ts stk c w with
  | none =>
    dsimp only [Option.map]
    rw [h1, h4]
  | some r => rfl

/-- The C string found in the line buffer once the terminator is written at `buffer_len`:
the line up to its first zero byte. -/
theorem cstr_buffer (client : telnet_client_t) (h0 : 0 ≤ client.buffer_len)
    (hlt : client.buffer_len < client.buffer.length) :
    cstr (client.buffer.set client.buffer_len.toNat 0) =
      some ((line_of client).takeWhile (fun c => c ≠ 0)) := by
  have hn : client.buffer_len.toNat < client.buffer.length := by omega
  have hset : client.buffer.set client.buffer_len.toNat 0 =
      client.buffer.take client.buffer_len.toNat ++
        0 :: client.buffer.drop (client.buffer_len.toNat + 1) := by
    rw [List.set_eq_take_append_cons_drop]; simp [hn]
  have htw : ∀ (l rest : List Nat),
      (l ++ 0 :: rest).takeWhile (fun c => decide (c ≠ 0)) =
        l.takeWhile (fun c => decide (c ≠ 0)) := by
    intro l rest
    induction l with
    | nil => simp
    | cons a l ih =>
      by_cases ha : a = 0
      · simp [List.takeWhile_cons, ha]
      · simp only [List.cons_append, List.takeWhile_cons, ha, ne_eq, not_false_eq_true,
          decide_True, if_true, ih]
  unfold cstr
  rw [if_pos (by rw [hset]; simp), hset, htw]
  rfl

/-- The terminator after a non-empty line: CR LF is sent, the line, up to its first zero
byte, is dispatched and the buffer is cleared. -/
theorem on_terminator_dispatch (now : Int) (ts : List Nat) (stk : Stack) (st : LoopState)
    (h0 : 0 < st.client.buffer_len) (hlt : st.client.buffer_len < st.client.buffer.length) :
    on_terminator now ts stk st =
      some { client := { st.client with
                          buffer := List.replicate TELNET_BUFFER_SIZE 0
                          buffer_len := 0
                          closed := (command_proc_call now ts stk st.client
                            ((line_of st.client).takeWhile (fun c => c ≠ 0))).1.closed }
             events := st.events ++ Event.send st.client.sockfd (bytes "\r\n") ::
               (command_proc_call now ts stk st.client
                 ((line_of st.client).takeWhile (fun c => c ≠ 0))).2
             handed := st.handed } := by
  unfold on_terminator
  simp only [gt_iff_lt, h0, if_true]
  rw [cstr_buffer st.client (le_of_lt h0) hlt]
  dsimp only
  rw [command_proc_call_congr now ts stk st.client
    { st.client with buffer := st.client.buffer.set st.client.buffer_len.toNat 0 }
    _ rfl rfl rfl rfl]

/-- The terminator after a non-empty line without a zero byte: CR LF is sent, the line is
dispatched and the buffer is cleared. -/
theorem on_terminator_line (now : Int) (ts : List Nat) (stk : Stack) (st : LoopState)
    (h0 : 0 < st.client.buffer_len) (hlt : st.client.buffer_len < st.client.buffer.length)
    (hnz : ∀ c ∈ line_of st.client, c ≠ 0) :
    on_terminator now ts stk st =
      some { client := { st.client with
                          buffer := List.replicate TELNET_BUFFER_SIZE 0
                          buffer_len := 0
                          closed :=
                            (command_proc_call now ts stk st.client (line_of st.client)).1.closed }
             events := st.events ++ Event.send st.client.sockfd (bytes "\r\n") ::
               (command_proc_call now ts stk st.client (line_of st.client)).2
             handed := st.handed } := by
  have htw : (line_of st.client).takeWhile (fun c => decide (c ≠ 0)) = line_of st.client := by
    rw [List.takeWhile_eq_self_iff]
    intro c hc
    simpa using hnz c hc
  rw [on_terminator_dispatch now ts stk st h0 hlt, htw]

/-- The loop on a non-empty printable line typed on an empty buffer, its terminator, and the
bytes after it: the line is echoed and dispatched; the bytes after it are processed unless
the dispatcher set the close flag. -/
theorem recv_loop_line (now : Int) (ts : List Nat) (stack : Nat → Stack)
    (cl : telnet_client_t) (w : List Nat) (t : Nat) (rest : List Nat)
    (hst : cl.telnet_state = 0) (hlen : cl.buffer_len = 0)
    (hbuf : cl.buffer.length = TELNET_BUFFER_SIZE)
    (hne : w ≠ []) (hp : ∀ c ∈ w, isprint c = true) (hwlen : w.length ≤ 1023)
    (ht : t = 13 ∨ t = 10) :
    recv_loop now ts stack 0 (w ++ t :: rest) { client := cl, events := [], handed := [] } =
      if (command_proc_call now ts (stack w.length) cl w).1.closed ≠ 0 then
        some ({ client := { cl with
                            buffer := List.replicate TELNET_BUFFER_SIZE 0
                            buffer_len := 0
                            closed := (command_proc_call now ts (stack w.length) cl w).1.closed }
                events := w.map (fun c => Event.send cl.sockfd [c]) ++
                  Event.send cl.sockfd (bytes "\r\n") ::
                    (command_proc_call now ts (stack w.length) cl w).2
                handed := List.range (w.length + 1) }, true)
      else
        recv_loop now ts stack (w.length + 1) rest
          { client := { cl with
                        buffer := List.replicate TELNET_BUFFER_SIZE 0
                        buffer_len := 0
                        closed := (command_proc_call now ts (stack w.length) cl w).1.closed }
            events := w.map (fun c => Event.send cl.sockfd [c]) ++
              Event.send cl.sockfd (bytes "\r\n") ::
                (command_proc_call now ts (stack w.length) cl w).2
            handed := List.range (w.length + 1) } := by
  obtain ⟨pc, hpc⟩ : ∃ pc : telnet_client_t, pc = w.foldl push_byte cl := ⟨_, rfl⟩
  have hfields := foldl_push_byte_fields w cl
  rw [← hpc] at hfields
  have hwpos : 0 < w.length := List.length_pos.2 hne
  have hplen : pc.buffer_len = w.length := by rw [hfields]; simp [hlen]
  have hpbuf : pc.buffer.length = 1024 := by
    rw [hpc, foldl_push_byte_length]; exact hbuf
  have hline : line_of pc = w := by
    rw [hpc, line_of_foldl_push_byte w cl (by omega)
      (by rw [hlen, hbuf]; simp only [TELNET_BUFFER_SIZE]; omega)]
    simp [line_of, hlen]
  have hsock : pc.sockfd = cl.sockfd := by rw [hfields]
  have hpst : pc.telnet_state = 0 := by rw [hfields]; exact hst
  have hnz : ∀ c ∈ line_of pc, c ≠ 0 := by
    rw [hline]
    intro c hc
    have := (isprint_iff c).1 (hp c hc)
    omega
  rw [recv_loop_printable_then now ts stack w (t :: rest) 0 _ hst
    (by rw [hlen]; omega) hp, ← hpc]
  rw [recv_loop_terminator now ts stack _ t rest _ hpst ht]
  rw [on_terminator_line now ts _ _ (by rw [hplen]; omega) (by rw [hplen, hpbuf]; omega) hnz]
  dsimp only
  rw [hline, Nat.zero_add,
    command_proc_call_congr now ts (stack w.length) cl pc w hsock.symm (by rw [hfields])
      (by rw [hfields]) (by rw [hfields])]
  have ha : pc.addr = cl.addr := by rw [hfields]
  have hla : pc.last_active = cl.last_active := by rw [hfields]
  have hau : pc.authenticated = cl.authenticated := by rw [hfields]
  have hun : pc.username = cl.username := by rw [hfields]
  simp [hsock, ha, hla, hau, hun, hpst, hst, List.range_eq_range', List.range'_concat]

theorem takeWhile_append_stop (p : Nat → Bool) (w rest : List Nat) (hw : ∀ c ∈ w, p c = true)
    (hr : ∀ c ∈ rest.head?, p c = false) : (w ++ rest).takeWhile p = w := by
  induction w with
  | nil =>
    cases rest with
    | nil => rfl
    | cons c rest => simp [List.takeWhile_cons, hr c (by simp)]
  | cons c w ih =>
    simp [List.takeWhile_cons, hw c (by simp), ih (fun d hd => hw d (by simp [hd]))]

theorem dropWhile_append_stop (p : Nat → Bool) (w rest : List Nat) (hw : ∀ c ∈ w, p c = true)
    (hr : ∀ c ∈ rest.head?, p c = false) : (w ++ rest).dropWhile p = rest := by
  induction w with
  | nil =>
    cases rest with
    | nil => rfl
    | cons c rest => simp [List.dropWhile_cons, hr c (by simp)]
  | cons c w ih =>
    simp [List.dropWhile_cons, hw c (by simp), ih (fun d hd => hw d (by simp [hd]))]

/-- The call of `sscanf` on a word, a run of white space and an argument. -/
theorem sscanf_word_arg (w sp a : List Nat) (stk : Stack) (hne : w ≠ [])
    (hns : ∀ c ∈ w, isspace c = false) (hlen : w.length < 128)
    (hsp : sp ≠ []) (hsp1 : ∀ c ∈ sp, isspace c = true)
    (ha : a ≠ []) (ha1 : ∀ c ∈ a.head?, isspace c = false) (hnl : ∀ c ∈ a, c ≠ 10)
    (halen : a.length < TELNET_BUFFER_SIZE) :
    sscanf_cmd_arg (w ++ sp ++ a) stk =
      some (2, w ++ 0 :: stk.cmd.drop (w.length + 1), a ++ 0 :: stk.arg.drop (a.length + 1)) := by
  have hhead : ∀ c ∈ (sp ++ a).head?, (!isspace c) = false := by
    intro c hc
    cases sp with
    | nil => exact absurd rfl hsp
    | cons d sp =>
      simp only [List.cons_append, List.head?_cons, Option.mem_def, Option.some.injEq] at hc
      subst hc
      simp [hsp1 d (by simp)]
  have hdrop : (w ++ sp ++ a).dropWhile isspace = w ++ sp ++ a := by
    cases w with
    | nil => exact absurd rfl hne
    | cons c w => simp [List.dropWhile_cons, hns c (by simp)]
  have htake : (w ++ sp ++ a).takeWhile (fun c => !isspace c) = w := by
    rw [List.append_assoc]
    exact takeWhile_append_stop _ w (sp ++ a) (fun c hc => by simp [hns c hc]) hhead
  have hdrop2 : (w ++ sp ++ a).dropWhile (fun c => !isspace c) = sp ++ a := by
    rw [List.append_assoc]
    exact dropWhile_append_stop _ w (sp ++ a) (fun c hc => by simp [hns c hc]) hhead
  have hdrop3 : (sp ++ a).dropWhile isspace = a := dropWhile_append_stop _ sp a hsp1 ha1
  have htake2 : a.takeWhile (fun c => decide (c ≠ 10)) = a := by
    rw [List.takeWhile_eq_self_iff]
    intro c hc; simp [hnl c hc]
  have hne2 : w ++ sp ++ a ≠ [] := by simp [hne]
  unfold sscanf_cmd_arg
  simp only [hdrop, htake, hdrop2, hdrop3, htake2, hne2, ha, if_false, store]
  rw [if_pos (by omega), if_pos (by omega)]

/-- C14: for a line made of `echo` in any letter case, one or more spaces, and a non-empty
argument `a` that does not start with white space (the whole line at most 1023 bytes, a C
string without line feed), `telnets_command_proc` writes exactly `\r\nEcho: `, `a`, `\r\n` in
one `send`, whatever the arrays held before, and leaves the record unchanged; `echo hello`
yields `\r\nEcho: hello\r\n`. -/
theorem C14_echo_with_argument (now : Int) (ts : List Nat) (stk : Stack)
    (client : telnet_client_t) (w sp a : List Nat)
    (hw : w.map tolower = bytes "echo")
    (hsp : sp ≠ []) (hsp1 : ∀ c ∈ sp, c = 32)
    (ha : a ≠ []) (ha1 : ∀ c ∈ a.head?, isspace c = false)
    (hcs : ∀ c ∈ a, c ≠ 0 ∧ c ≠ 10)
    (hlen : (w ++ sp ++ a).length ≤ 1023) :
    telnets_command_proc now ts stk client (w ++ sp ++ a) =
        some (client, [Event.send client.sockfd (bytes "\r\nEcho: " ++ a ++ bytes "\r\n")]) ∧
      telnets_command_proc now ts stk client (bytes "echo hello") =
        some (client, [Event.send client.sockfd (bytes "\r\nEcho: hello\r\n")]) := by
  have hmain : ∀ (w sp a : List Nat), w.map tolower = bytes "echo" → sp ≠ [] →
      (∀ c ∈ sp, c = 32) → a ≠ [] → (∀ c ∈ a.head?, isspace c = false) →
      (∀ c ∈ a, c ≠ 0 ∧ c ≠ 10) → (w ++ sp ++ a).length ≤ 1023 →
      telnets_command_proc now ts stk client (w ++ sp ++ a) =
        some (client, [Event.send client.sockfd (bytes "\r\nEcho: " ++ a ++ bytes "\r\n")]) := by
    intro w sp a hw hsp hsp1 ha ha1 hcs hlen
    have hwlen : w.length = 4 := by
      have := congrArg List.length hw
      simpa [bytes] using this
    have hletter : ∀ c ∈ w, 65 ≤ c ∧ c ≤ 122 := by
      intro c hc
      have hm : tolower c ∈ w.map tolower := List.mem_map_of_mem _ hc
      rw [hw] at hm
      have hb : bytes "echo" = [101, 99, 104, 111] := by decide
      rw [hb] at hm
      unfold tolower at hm
      simp only [List.mem_cons, List.mem_singleton, List.not_mem_nil, or_false] at hm
      split_ifs at hm <;> omega
    have hne : w ≠ [] := by intro h0; rw [h0] at hwlen; simp at hwlen
    have hns : ∀ c ∈ w, isspace c = false := by
      intro c hc
      have := hletter c hc
      simp only [isspace, Bool.decide_or, Bool.decide_and, Bool.or_eq_false_iff,
        decide_eq_false_iff_not, Bool.and_eq_false_iff]
      omega
    have hnz : ∀ c ∈ w, c ≠ 0 := fun c hc => by have := hletter c hc; omega
    have hsp2 : ∀ c ∈ sp, isspace c = true := by
      intro c hc; rw [hsp1 c hc]; decide
    have halen : a.length < TELNET_BUFFER_SIZE := by
      simp only [List.length_append, TELNET_BUFFER_SIZE] at hlen ⊢
      omega
    have halen2 : a.length ≤ 1018 := by
      have : 0 < sp.length := List.length_pos.2 hsp
      simp only [List.length_append] at hlen
      omega
    unfold telnets_command_proc
    rw [sscanf_word_arg w sp a stk hne hns (by omega) hsp hsp2 ha ha1 (fun c hc => (hcs c hc).2)
      halen]
    simp only [cstr_terminated w _ hnz, cstr_terminated a _ (fun c hc => (hcs c hc).1), hw]
    rw [if_neg (by decide), if_neg (by decide), if_neg (by decide), if_pos (by decide),
      if_pos (by simpa using List.length_pos.2 ha)]
    have hfit : snprintf (TELNET_BUFFER_SIZE + 64) (bytes "\r\nEcho: " ++ a ++ bytes "\r\n") =
        bytes "\r\nEcho: " ++ a ++ bytes "\r\n" := by
      unfold snprintf
      apply List.take_of_length_le
      have h1 : (bytes "\r\nEcho: ").length = 8 := by decide
      have h2 : (bytes "\r\n").length = 2 := by decide
      simp only [List.length_append, h1, h2, TELNET_BUFFER_SIZE]
      omega
    rw [hfit]
  refine ⟨hmain w sp a hw hsp hsp1 ha ha1 hcs hlen, ?_⟩
  have := hmain (bytes "echo") [32] (bytes "hello") (by decide) (by decide) (by decide)
    (by decide) (by decide) (by decide) (by decide)
  exact this

/-- C14 at the line `ECHO  a b` (two spaces before the argument `a b`). -/
theorem C14_echo_with_argument_witness :
    telnets_command_proc 0 [] (zero_stack 0) (new_client 100 4 peer) (bytes "ECHO  a b") =
      some (new_client 100 4 peer, [Event.send 4 (bytes "\r\nEcho: a b\r\n")]) :=
  (C14_echo_with_argument 0 [] (zero_stack 0) (new_client 100 4 peer) (bytes "ECHO")
    [32, 32] (bytes "a b") (by decide) (by decide) (by decide) (by decide) (by decide)
    (by decide) (by decide)).1

/-! ## The dispatcher and uninitialised memory -/

/-- The dispatcher on the one-word line `echo` (any letter case): the answer is made from
whatever C string the `arg` array held before the call. -/
theorem command_proc_echo_alone (now : Int) (ts : List Nat) (stk : Stack)
    (client : telnet_client_t) (w g : List Nat) (hw : w.map tolower = bytes "echo")
    (hg : cstr stk.arg = some g) :
    telnets_command_proc now ts stk client w =
      some (client, [Event.send client.sockfd
        (if g.length > 0 then
          snprintf (TELNET_BUFFER_SIZE + 64) (bytes "\r\nEcho: " ++ g ++ bytes "\r\n")
        else usage_msg)]) := by
  have hwlen : w.length = 4 := by
    have := congrArg List.length hw
    simpa [bytes] using this
  have hletter : ∀ c ∈ w, 65 ≤ c ∧ c ≤ 122 := by
    intro c hc
    have hm : tolower c ∈ w.map tolower := List.mem_map_of_mem _ hc
    rw [hw] at hm
    have hb : bytes "echo" = [101, 99, 104, 111] := by decide
    rw [hb] at hm
    unfold tolower at hm
    simp only [List.mem_cons, List.mem_singleton, List.not_mem_nil, or_false] at hm
    split_ifs at hm <;> omega
  have hne : w ≠ [] := by intro h0; rw [h0] at hwlen; simp at hwlen
  have hns : ∀ c ∈ w, isspace c = false := by
    intro c hc
    have := hletter c hc
    simp only [isspace, Bool.decide_or, Bool.decide_and, Bool.or_eq_false_iff,
      decide_eq_false_iff_not, Bool.and_eq_false_iff]
    omega
  have hnz : ∀ c ∈ w, c ≠ 0 := fun c hc => by have := hletter c hc; omega
  unfold telnets_command_proc
  rw [sscanf_one_word w stk hne hns (by omega)]
  simp only [cstr_terminated w _ hnz, hw, hg]
  rw [if_neg (by decide), if_neg (by decide), if_neg (by decide), if_pos (by decide)]
  split_ifs <;> rfl

/-- C15 (the code departs from it): `arg` is not initialised and `sscanf` stores nothing in
it for the line `echo`, so the answer depends on the prior content of the array.  With the
text `hi` left there the dispatcher writes `\r\nEcho: hi\r\n`; it writes the usage text only
when the array starts with a zero byte. -/
theorem C15_echo_alone_reads_stale_arg :
    telnets_command_proc 0 [] used_stack (new_client 100 4 peer) (bytes "echo") =
        some (new_client 100 4 peer, [Event.send 4 (bytes "\r\nEcho: hi\r\n")]) ∧
      telnets_command_proc 0 [] (zero_stack 0) (new_client 100 4 peer) (bytes "echo") =
        some (new_client 100 4 peer, [Event.send 4 (bytes "\r\nUsage: echo <message>\r\n")]) ∧
      (∀ (now : Int) (ts : List Nat) (stk : Stack) (client : telnet_client_t) (g : List Nat),
        cstr stk.arg = some g → g ≠ [] →
        telnets_command_proc now ts stk client (bytes "echo") =
          some (client, [Event.send client.sockfd
            (snprintf (TELNET_BUFFER_SIZE + 64) (bytes "\r\nEcho: " ++ g ++ bytes "\r\n"))])) := by
  refine ⟨rfl, rfl, ?_⟩
  · intro now ts stk client g hg hne
    rw [command_proc_echo_alone now ts stk client (bytes "echo") g (by decide) hg,
      if_pos (by simpa using List.length_pos.2 hne)]

/-- C17 (the code departs from it): for the blank line of one space `sscanf` returns `EOF`,
not 0, so the dispatcher goes on with the uninitialised `cmd` array.  The line has no token,
yet with the word `quit` left in the array the close flag is set and the farewell is sent;
with zeros left there the answer is the unknown-command text. -/
theorem C17_blank_line_sets_close_flag :
    first_token [32] = [] ∧
      telnets_command_proc 0 [] used_stack (new_client 100 4 peer) [32] =
        some ({ new_client 100 4 peer with closed := 1 }, [Event.send 4 bye_msg]) ∧
      telnets_command_proc 0 [] (zero_stack 0) (new_client 100 4 peer) [32] =
        some (new_client 100 4 peer,
          [Event.send 4 (bytes "\r\nUnknown command: \r\n"), Event.send 4 help_hint]) := by
  exact ⟨by decide, rfl, rfl⟩

/-! ## The stats command -/

/-- The dispatcher on a line that is the word `stats` in any letter case: the number of
seconds printed is `now - last_active`. -/
theorem command_proc_stats (now : Int) (ts : List Nat) (stk : Stack)
    (client : telnet_client_t) (w : List Nat) (hne : w ≠ [])
    (hns : ∀ c ∈ w, isspace c = false) (hnz : ∀ c ∈ w, c ≠ 0) (hlen : w.length < 128)
    (hw : w.map tolower = bytes "stats") :
    telnets_command_proc now ts stk client w =
      some (client, [Event.send client.sockfd
        (snprintf 256 (bytes "\r\nClient statistics:\r\n" ++
          bytes "  IP: " ++ inet_ntoa client.addr ++ bytes "\r\n" ++
          bytes "  Port: " ++ fmt_int (ntohs client.addr.sin_port) ++ bytes "\r\n" ++
          bytes "  Connected for: " ++ fmt_int (now - client.last_active) ++
          bytes " seconds\r\n"))]) := by
  unfold telnets_command_proc
  rw [sscanf_one_word w stk hne hns hlen]
  simp only [cstr_terminated w _ hnz]
  rw [hw]
  rw [if_neg (by decide), if_neg (by decide), if_neg (by decide), if_neg (by decide),
    if_neg (by decide), if_neg (by decide), if_neg (by decide), if_pos (by decide)]

/-- A read of the word `stats` and a terminator on an empty line: the answer says 0
seconds, whatever the record's timestamp was. -/
theorem recv_stats_line (now : Int) (ts : List Nat) (stack : Nat → Stack)
    (server : telnet_server_t) (idx : Int) (client : telnet_client_t) (w : List Nat)
    (hslot : client_at server idx = some client) (hstate : client.telnet_state = 0)
    (hlen : client.buffer_len = 0) (hbuf : client.buffer.length = TELNET_BUFFER_SIZE)
    (hclosed : client.closed = 0)
    (hne : w ≠ []) (hp : ∀ c ∈ w, isprint c = true) (hns : ∀ c ∈ w, isspace c = false)
    (hwlen : w.length < 128) (hw : w.map tolower = bytes "stats") :
    ∃ r, telnets_recv_data_proc now ts stack server idx (Recv.received (w ++ [13])) = some r ∧
      r.events = w.map (fun c => Event.send client.sockfd [c]) ++
        [Event.send client.sockfd (bytes "\r\n"),
          Event.send client.sockfd
            (snprintf 256 (bytes "\r\nClient statistics:\r\n" ++
              bytes "  IP: " ++ inet_ntoa client.addr ++ bytes "\r\n" ++
              bytes "  Port: " ++ fmt_int (ntohs client.addr.sin_port) ++ bytes "\r\n" ++
              bytes "  Connected for: " ++ fmt_int 0 ++ bytes " seconds\r\n"))] := by
  have hnz : ∀ c ∈ w, c ≠ 0 := fun c hc => by
    have := (isprint_iff c).1 (hp c hc); omega
  have hrun : filter_run client.telnet_state (w ++ [13]) = 0 := by
    rw [hstate]
    apply filter_run_no_lead
    intro c hc
    simp only [TELNET_IAC]
    rcases List.mem_append.1 hc with h | h
    · have := (isprint_iff c).1 (hp c h); omega
    · have := List.mem_singleton.1 h; omega
  have hloop := recv_loop_line now ts stack
    { client with last_active := now, telnet_state := 0 } w 13 [] rfl hlen hbuf
    hne hp (by omega) (Or.inl rfl)
  rw [command_proc_call_of_some now ts _ _ w _
    (command_proc_stats now ts _ _ w hne hns hnz hwlen hw)] at hloop
  have hc : ¬ (client.closed ≠ 0) := by simp [hclosed]
  dsimp only at hloop
  rw [if_neg hc] at hloop
  simp only [recv_loop, sub_self] at hloop
  have hr := recv_data_proc_of_loop now ts stack server idx client (w ++ [13]) _ hslot
    (by simp) (by rw [hrun]; exact hloop)
  exact ⟨_, hr, rfl⟩

/-- C18 (the code departs from it): `stats` prints `now - last_active`, and
`telnets_recv_data_proc` sets `last_active` to the time of the read before it dispatches.
For the connection accepted at time 100 whose line `stats` is received at time 160 the
answer says `Connected for: 0 seconds`, not 60; the same holds for every record and every
time of the read. -/
theorem C18_stats_reports_zero_seconds :
    (client_at one_client_server 0).map (fun c => c.last_active) = some 100 ∧
      (telnets_recv_data_proc 160 [] zero_stack one_client_server 0
          (Recv.received (bytes "stats\r"))).map (fun r => r.events.drop 6)
        = some [Event.send 4 (bytes ("\r\nClient statistics:\r\n  IP: 10.0.0.7\r\n" ++
            "  Port: 5000\r\n  Connected for: 0 seconds\r\n"))] ∧
      (∀ (now : Int) (ts : List Nat) (stack : Nat → Stack) (server : telnet_server_t)
        (idx : Int) (client : telnet_client_t),
        client_at server idx = some client → client.telnet_state = 0 →
        client.buffer_len = 0 → client.buffer.length = TELNET_BUFFER_SIZE →
        client.closed = 0 →
        ∃ r, telnets_recv_data_proc now ts stack server idx
            (Recv.received (bytes "stats" ++ [13])) = some r ∧
          r.events = (bytes "stats").map (fun c => Event.send client.sockfd [c]) ++
            [Event.send client.sockfd (bytes "\r\n"),
              Event.send client.sockfd
                (snprintf 256 (bytes "\r\nClient statistics:\r\n" ++
                  bytes "  IP: " ++ inet_ntoa client.addr ++ bytes "\r\n" ++
                  bytes "  Port: " ++ fmt_int (ntohs client.addr.sin_port) ++ bytes "\r\n" ++
                  bytes "  Connected for: " ++ fmt_int 0 ++ bytes " seconds\r\n"))]) := by
  refine ⟨rfl, rfl, ?_⟩
  intro now ts stack server idx client hslot hstate hlen hbuf hclosed
  exact recv_stats_line now ts stack server idx client (bytes "stats") hslot hstate hlen hbuf
    hclosed (by decide) (by decide) (by decide) (by decide) (by decide)

/-! ## The maximum descriptor -/

theorem client_at_set_cases (server : telnet_server_t) (n : Nat) (v : Option telnet_client_t)
    (i : Int) (c : telnet_client_t)
    (h : client_at { server with clients := server.clients.set n v } i = some c) :
    v = some c ∨ client_at server i = some c := by
  unfold client_at at h ⊢
  split_ifs at h ⊢ with h0
  · simp only [List.getD_eq_getElem?_getD, List.getElem?_set] at h ⊢
    split_ifs at h with h1 h2
    · left; simpa using h
    · simp at h
    · right; exact h

theorem add_client_max_fd (now : Int) (ok : Bool) (server : telnet_server_t) (fd : Int)
    (addr : sockaddr_in) :
    (telnets_add_client now ok server fd addr).2.max_fd =
        (if (telnets_add_client now ok server fd addr).1 = 0 then max server.max_fd fd
          else server.max_fd) ∧
      (telnets_add_client now ok server fd addr).2.listen_sockfd = server.listen_sockfd := by
  unfold telnets_add_client
  dsimp only
  split_ifs
  all_goals first
    | (simp_all; done)
    | (simp_all; omega)

theorem add_client_subset (now : Int) (ok : Bool) (server : telnet_server_t) (fd : Int)
    (addr : sockaddr_in) (i : Int) (c : telnet_client_t)
    (h : client_at (telnets_add_client now ok server fd addr).2 i = some c) :
    c.sockfd = fd ∨ client_at server i = some c := by
  by_cases hret : (telnets_add_client now ok server fd addr).1 = 0
  · have hcl := add_client_clients now ok server fd addr hret
    have h1 : client_at { server with clients := (telnets_add_client now ok server fd addr).2.clients } i
        = some c := h
    rw [hcl] at h1
    rcases client_at_set_cases server _ _ i c h1 with h2 | h2
    · left
      have := Option.some.inj h2
      rw [← this]; rfl
    · right; exact h2
  · right
    have hsame : (telnets_add_client now ok server fd addr).2 = server := by
      unfold telnets_add_client at hret ⊢
      dsimp only at hret ⊢
      split_ifs at hret ⊢ <;> first | rfl | simp at hret
    rw [hsame] at h
    exact h

theorem remove_client_subset (server : telnet_server_t) (idx : Int) :
    (telnets_remove_client server idx).1.max_fd = server.max_fd ∧
      (telnets_remove_client server idx).1.listen_sockfd = server.listen_sockfd ∧
      ∀ (i : Int) (c : telnet_client_t),
        client_at (telnets_remove_client server idx).1 i = some c → client_at server i = some c := by
  unfold telnets_remove_client
  split_ifs
  · exact ⟨rfl, rfl, fun _ _ h => h⟩
  · split
    · exact ⟨rfl, rfl, fun _ _ h => h⟩
    · refine ⟨rfl, rfl, fun i c h => ?_⟩
      rcases client_at_set_cases server _ _ i c h with h2 | h2
      · simp at h2
      · exact h2

theorem cleanup_from_subset (now : Int) (is : List Nat) :
    ∀ (server : telnet_server_t) (events : List Event),
      (cleanup_from now is (server, events)).1.max_fd = server.max_fd ∧
      (cleanup_from now is (server, events)).1.listen_sockfd = server.listen_sockfd ∧
      ∀ (i : Int) (c : telnet_client_t),
        client_at (cleanup_from now is (server, events)).1 i = some c →
          client_at server i = some c := by
  induction is with
  | nil => intro server events; exact ⟨rfl, rfl, fun _ _ h => h⟩
  | cons j rest ih =>
    intro server events
    simp only [cleanup_from]
    split
    · exact ih _ _
    · split_ifs
      · obtain ⟨a, b, c⟩ := ih (telnets_remove_client server j).1
          (events ++ Event.send _ timeout_msg :: (telnets_remove_client server j).2)
        obtain ⟨a1, b1, c1⟩ := remove_client_subset server j
        exact ⟨a.trans a1, b.trans b1, fun i cl h => c1 i cl (c i cl h)⟩
      · exact ih _ _

/-- One operation: `max_fd` becomes the maximum with the added descriptor when an add
succeeds and is unchanged otherwise; no record appears in a slot other than the added one. -/
theorem apply_op_spec (server : telnet_server_t) (op : Op) :
    (apply_op server op).max_fd = (added_fds server [op]).foldl max server.max_fd ∧
      (apply_op server op).listen_sockfd = server.listen_sockfd ∧
      ∀ (i : Int) (c : telnet_client_t), client_at (apply_op server op) i = some c →
        c.sockfd ∈ added_fds server [op] ∨ client_at server i = some c := by
  cases op with
  | add now ok fd addr =>
    obtain ⟨a, b⟩ := add_client_max_fd now ok server fd addr
    refine ⟨?_, b, ?_⟩
    · simp only [apply_op, added_fds, List.append_nil]
      rw [a]
      split_ifs <;> simp
    · intro i c h
      simp only [apply_op] at h
      by_cases hret : (telnets_add_client now ok server fd addr).1 = 0
      · rcases add_client_subset now ok server fd addr i c h with h1 | h1
        · left; simp [added_fds, hret, h1]
        · right; exact h1
      · right
        have hsame : (telnets_add_client now ok server fd addr).2 = server := by
          unfold telnets_add_client at hret ⊢
          dsimp only at hret ⊢
          split_ifs at hret ⊢ <;> first | rfl | simp at hret
        rw [hsame] at h
        exact h
  | remove idx =>
    obtain ⟨a, b, c⟩ := remove_client_subset server idx
    exact ⟨by simpa [apply_op, added_fds] using a, b, fun i cl h => Or.inr (c i cl h)⟩
  | cleanup now =>
    obtain ⟨a, b, c⟩ := cleanup_from_subset now (List.range server.max_clients.toNat) server []
    exact ⟨by simpa [apply_op, added_fds, telnets_cleanup_clients] using a, b,
      fun i cl h => Or.inr (c i cl h)⟩

theorem added_fds_cons (server : telnet_server_t) (op : Op) (rest : List Op) :
    added_fds server (op :: rest) = added_fds server [op] ++ added_fds (apply_op server op) rest := by
  cases op <;> simp [added_fds]

theorem le_foldl_max (l : List Int) (a : Int) :
    a ≤ l.foldl max a ∧ ∀ x ∈ l, x ≤ l.foldl max a := by
  induction l generalizing a with
  | nil => simp
  | cons y l ih =>
    obtain ⟨h1, h2⟩ := ih (max a y)
    refine ⟨le_trans (le_max_left a y) h1, ?_⟩
    intro x hx
    rcases List.mem_cons.1 hx with rfl | hx
    · exact le_trans (le_max_right a x) h1
    · exact h2 x hx

theorem foldl_max_le (l : List Int) (a b : Int) (ha : a ≤ b) (hl : ∀ x ∈ l, x ≤ b) :
    l.foldl max a ≤ b := by
  induction l generalizing a with
  | nil => simpa using ha
  | cons y l ih =>
    exact ih (max a y) (max_le ha (hl y (by simp))) (fun x hx => hl x (by simp [hx]))

theorem foldl_max_mono (l : List Int) (a b : Int) (h : a ≤ b) :
    l.foldl max a ≤ l.foldl max b := by
  induction l generalizing a b with
  | nil => simpa using h
  | cons y l ih => exact ih _ _ (max_le_max h (le_refl y))

/-- A sequence of operations: `max_fd` is the maximum of its starting value and the
descriptors added, and every record in a slot afterwards was there before or was added. -/
theorem run_ops_spec (ops : List Op) :
    ∀ server : telnet_server_t,
      (run_ops server ops).max_fd = (added_fds server ops).foldl max server.max_fd ∧
      (run_ops server ops).listen_sockfd = server.listen_sockfd ∧
      ∀ (i : Int) (c : telnet_client_t), client_at (run_ops server ops) i = some c →
        c.sockfd ∈ added_fds server ops ∨ client_at server i = some c := by
  induction ops with
  | nil => intro server; exact ⟨rfl, rfl, fun _ _ h => Or.inr h⟩
  | cons op rest ih =>
    intro server
    obtain ⟨a, b, c⟩ := ih (apply_op server op)
    obtain ⟨a1, b1, c1⟩ := apply_op_spec server op
    rw [added_fds_cons]
    refine ⟨?_, b.trans b1, ?_⟩
    · simp only [run_ops]
      rw [a, a1, List.foldl_append]
    · intro i cl h
      simp only [run_ops] at h
      rcases c i cl h with h2 | h2
      · left; exact List.mem_append.2 (Or.inr h2)
      · rcases c1 i cl h2 with h3 | h3
        · left; exact List.mem_append.2 (Or.inl h3)
        · right; exact h3

theorem empty_server_empty (i : Int) : client_at empty_server i = none := by
  unfold client_at empty_server
  split_ifs
  · simp only [List.getD_eq_getElem?_getD, List.getElem?_replicate]
    split_ifs <;> rfl
  · rfl

/-- C20 as stated fails: after two adds (descriptors 4 and 5) and the release of slot 1,
`max_fd` is still 5 while the highest descriptor in use is 4. -/
theorem C20_max_fd_not_lowered_counterexample :
    (run_ops empty_server
        [Op.add 100 true 4 peer, Op.add 101 true 5 peer, Op.remove 1]).max_fd = 5 ∧
      max_in_use (run_ops empty_server
        [Op.add 100 true 4 peer, Op.add 101 true 5 peer, Op.remove 1]) = 4 ∧
      empty_server.max_fd = empty_server.listen_sockfd :=
  ⟨rfl, rfl, rfl⟩

/-- C20, amended: with `max_fd` initialised to the listening descriptor and the slots empty,
after every sequence of `telnets_add_client`, `telnets_remove_client` and
`telnets_cleanup_clients` operations `max_fd` is the maximum of the listening descriptor and
the descriptors of all adds that succeeded so far, released or not; hence it is at least
the descriptor of every occupied slot and at least the highest descriptor in use. -/
theorem C20_max_fd_upper_bound (server : telnet_server_t) (ops : List Op)
    (hinit : server.max_fd = server.listen_sockfd)
    (hempty : ∀ i : Int, client_at server i = none) :
    (run_ops server ops).max_fd = (added_fds server ops).foldl max server.listen_sockfd ∧
      (run_ops server ops).listen_sockfd = server.listen_sockfd ∧
      (∀ (i : Int) (c : telnet_client_t), client_at (run_ops server ops) i = some c →
        c.sockfd ≤ (run_ops server ops).max_fd) ∧
      max_in_use (run_ops server ops) ≤ (run_ops server ops).max_fd := by
  obtain ⟨a, b, c⟩ := run_ops_spec ops server
  rw [hinit] at a
  have hslots : ∀ (i : Int) (cl : telnet_client_t), client_at (run_ops server ops) i = some cl →
      cl.sockfd ≤ (run_ops server ops).max_fd := by
    intro i cl h
    rcases c i cl h with h1 | h1
    · rw [a]; exact (le_foldl_max _ _).2 _ h1
    · rw [hempty i] at h1; simp at h1
  refine ⟨a, b, hslots, ?_⟩
  unfold max_in_use
  apply foldl_max_le
  · rw [b, a]; exact (le_foldl_max _ _).1
  · intro x hx
    obtain ⟨o, ho, hox⟩ := List.mem_filterMap.1 hx
    cases o with
    | none => simp at hox
    | some cl =>
      simp only [Option.map_some', Option.some.injEq] at hox
      obtain ⟨n, hn, hget⟩ := List.getElem_of_mem ho
      have hat : client_at (run_ops server ops) (n : Int) = some cl := by
        simp [client_at, List.getElem?_eq_getElem hn, hget]
      rw [← hox]
      exact hslots n cl hat

/-- C20 (amended) at `empty_server`: two adds and the release of slot 1. -/
theorem C20_max_fd_upper_bound_witness :
    (run_ops empty_server
        [Op.add 100 true 4 peer, Op.add 101 true 5 peer, Op.remove 1]).max_fd =
      [4, 5].foldl max 3 ∧
    max_in_use (run_ops empty_server
        [Op.add 100 true 4 peer, Op.add 101 true 5 peer, Op.remove 1]) ≤
      (run_ops empty_server
        [Op.add 100 true 4 peer, Op.add 101 true 5 peer, Op.remove 1]).max_fd :=
  ⟨(C20_max_fd_upper_bound empty_server
      [Op.add 100 true 4 peer, Op.add 101 true 5 peer, Op.remove 1] rfl
      empty_server_empty).1,
    (C20_max_fd_upper_bound empty_server
      [Op.add 100 true 4 peer, Op.add 101 true 5 peer, Op.remove 1] rfl
      empty_server_empty).2.2.2⟩

/-! ## The lowest free slot -/

theorem find_available_range'_cases (server : telnet_server_t) :
    ∀ (n s : Nat),
      (find_available_from server (List.range' s n) = -1 ∧
        ∀ j : Nat, s ≤ j → j < s + n → client_at server (j : Int) ≠ none) ∨
      ∃ k : Nat, s ≤ k ∧ k < s + n ∧
        find_available_from server (List.range' s n) = (k : Int) ∧
        client_at server (k : Int) = none ∧
        ∀ j : Nat, s ≤ j → j < k → client_at server (j : Int) ≠ none := by
  intro n
  induction n with
  | zero =>
    intro s
    left
    exact ⟨rfl, fun j h1 h2 => by omega⟩
  | succ n ih =>
    intro s
    rw [List.range'_succ, find_available_from]
    by_cases hs : client_at server (s : Int) = none
    · right
      exact ⟨s, le_refl _, by omega, by rw [if_pos hs], hs, fun j h1 h2 => by omega⟩
    · rw [if_neg hs]
      rcases ih (s + 1) with ⟨h1, h2⟩ | ⟨k, h1, h2, h3, h4, h5⟩
      · left
        refine ⟨h1, fun j hj1 hj2 => ?_⟩
        by_cases hjs : j = s
        · rw [hjs]; exact hs
        · exact h2 j (by omega) (by omega)
      · right
        refine ⟨k, by omega, by omega, h3, h4, fun j hj1 hj2 => ?_⟩
        by_cases hjs : j = s
        · rw [hjs]; exact hs
        · exact h5 j (by omega) hj2

theorem filter_set_some {α : Type} (l : List (Option α)) (x : α) :
    ∀ k : Nat, l[k]? = some none →
      ((l.set k (some x)).filter (fun o => o.isSome)).length =
        (l.filter (fun o => o.isSome)).length + 1 := by
  induction l with
  | nil => intro k h; simp at h
  | cons a l ih =>
    intro k h
    cases k with
    | zero =>
      simp only [List.getElem?_cons_zero, Option.some.injEq] at h
      subst h
      simp [List.filter_cons]
    | succ k =>
      simp only [List.getElem?_cons_succ] at h
      have := ih k h
      cases a with
      | none => simpa [List.filter_cons] using this
      | some y => simpa [List.filter_cons] using this

/-- C22: on a table of five slots, `telnets_find_available_slot` returns the smallest index
whose slot is empty, and -1 exactly when the five slots are occupied.  A call of
`telnets_add_client` that returns 0 stores the new record (descriptor and address as given,
`buffer_len` 0, filter state `NORMAL`, close flag clear, not authenticated) in that slot,
which was empty, leaves every other slot as it was, and so raises the number of occupied
slots by one. -/
theorem C22_lowest_free_slot (server : telnet_server_t) (hok : server_ok server) :
    (∀ k : Nat, k < 5 → client_at server (k : Int) = none →
        (∀ j : Nat, j < k → client_at server (j : Int) ≠ none) →
        telnets_find_available_slot server = (k : Int)) ∧
      (telnets_find_available_slot server = -1 ↔
        ∀ i : Nat, i < 5 → client_at server (i : Int) ≠ none) ∧
      (telnets_find_available_slot server = -1 ∨
        ∃ k : Nat, k < 5 ∧ telnets_find_available_slot server = (k : Int) ∧
          client_at server (k : Int) = none ∧
          ∀ j : Nat, j < k → client_at server (j : Int) ≠ none) ∧
      (∀ (now : Int) (ok : Bool) (fd : Int) (addr : sockaddr_in),
        (telnets_add_client now ok server fd addr).1 = 0 →
        client_at server (telnets_find_available_slot server) = none ∧
        client_at (telnets_add_client now ok server fd addr).2
            (telnets_find_available_slot server) =
          some { sockfd := fd, addr := addr, buffer := List.replicate 1024 0, buffer_len := 0,
                 last_active := now, authenticated := 0, username := List.replicate 32 0,
                 telnet_state := 0, closed := 0 } ∧
        (∀ j : Int, j ≠ telnets_find_available_slot server →
          client_at (telnets_add_client now ok server fd addr).2 j = client_at server j) ∧
        occupied (telnets_add_client now ok server fd addr).2 = occupied server + 1) := by
  have hrange : telnets_find_available_slot server =
      find_available_from server (List.range' 0 5) := by
    unfold telnets_find_available_slot
    rw [hok.1, List.range_eq_range']
    rfl
  have hcases := find_available_range'_cases server 5 0
  rw [← hrange] at hcases
  refine ⟨?_, ?_, ?_, ?_⟩
  · intro k hk hnone hocc
    rw [hrange]
    exact find_available_range' server k hnone 5 0 (by omega) (by omega)
      (fun j _ hj => hocc j hj)
  · constructor
    · intro h i hi
      rcases hcases with ⟨_, h2⟩ | ⟨k, _, _, h3, _, _⟩
      · exact h2 i (by omega) (by omega)
      · rw [h] at h3; omega
    · intro h
      rw [hrange, List.range'_eq_map_range]
      apply find_available_full
      intro i hi
      simp only [List.mem_map, List.mem_range] at hi
      obtain ⟨a, ha, rfl⟩ := hi
      exact h (0 + a) (by omega)
  · rcases hcases with ⟨h1, _⟩ | ⟨k, _, h2, h3, h4, h5⟩
    · left; exact h1
    · right
      exact ⟨k, by omega, h3, h4, fun j hj => h5 j (by omega) hj⟩
  · intro now ok fd addr hret
    obtain ⟨hempty, hnew⟩ := add_client_slot now ok server fd addr hok hret
    have hcl := add_client_clients now ok server fd addr hret
    have hidx0 : 0 ≤ telnets_find_available_slot server := by
      rcases hcases with ⟨h1, _⟩ | ⟨k, _, _, h3, _, _⟩
      · exfalso
        simp [telnets_add_client, h1] at hret
      · rw [h3]; omega
    have hlt : (telnets_find_available_slot server).toNat < server.clients.length := by
      rcases hcases with ⟨h1, _⟩ | ⟨k, _, h2, h3, _, _⟩
      · rw [h1] at hidx0; omega
      · rw [h3, hok.2]; simp only [TELNET_MAX_CLIENTS]; omega
    refine ⟨hempty, hnew, ?_, ?_⟩
    · intro j hj
      have h1 : client_at (telnets_add_client now ok server fd addr).2 j =
          client_at { server with clients :=
            (telnets_add_client now ok server fd addr).2.clients } j := rfl
      rw [h1, hcl]
      exact client_at_set_ne server _ j _ hidx0 (fun h => hj h.symm)
    · unfold occupied
      rw [hcl]
      apply filter_set_some
      have hget : client_at server (telnets_find_available_slot server) =
          (server.clients[(telnets_find_available_slot server).toNat]?).getD none := by
        simp [client_at, hidx0]
      rw [hget, List.getElem?_eq_getElem hlt] at hempty
      rw [List.getElem?_eq_getElem hlt]
      simpa using hempty

/-- C22 at the server holding one record in slot 0: the next free slot is 1. -/
theorem C22_lowest_free_slot_witness :
    telnets_find_available_slot one_client_server = 1 ∧
      occupied (telnets_add_client 101 true one_client_server 5 peer).2 = 2 :=
  ⟨(C22_lowest_free_slot one_client_server ⟨rfl, rfl⟩).1 1 (by decide) rfl
      (fun j hj => by
        have h0 : j = 0 := by omega
        subst h0
        exact fun h => by cases h),
    ((C22_lowest_free_slot one_client_server ⟨rfl, rfl⟩).2.2.2 101 true 5 peer rfl).2.2.2.trans
      rfl⟩

/-! ## Blank lines -/

/-- The call of `sscanf` on a line of white space only: the input ends before the first
conversion, the return value is `EOF`, and the two arrays are not written. -/
theorem sscanf_blank (line : List Nat) (stk : Stack) (h : ∀ c ∈ line, isspace c = true) :
    sscanf_cmd_arg line stk = some (-1, stk.cmd, stk.arg) := by
  have hdrop : line.dropWhile isspace = [] := by
    rw [List.dropWhile_eq_nil_iff]
    exact h
  simp [sscanf_cmd_arg, hdrop]

/-- C23 (the code departs from it): for a non-empty line of spaces `sscanf` returns `EOF`
(-1), never 0, so the return under `if (parsed == 0)` is not taken; the dispatcher goes on to
compare the uninitialised `cmd` array with the command names, and every path from there
sends something.  With zeros in the array the line of one space is answered with the
unknown-command text and the help hint. -/
theorem C23_blank_line_is_dispatched :
    (∀ (line : List Nat) (stk : Stack), line ≠ [] → (∀ c ∈ line, c = 32) →
        sscanf_cmd_arg line stk = some (-1, stk.cmd, stk.arg)) ∧
      (∀ (now : Int) (ts : List Nat) (stk : Stack) (client : telnet_client_t) (line : List Nat)
        (r : telnet_client_t × List Event), line ≠ [] → (∀ c ∈ line, c = 32) →
        telnets_command_proc now ts stk client line = some r → r.2 ≠ []) ∧
      telnets_command_proc 0 [] (zero_stack 0) (new_client 100 4 peer) [32] =
        some (new_client 100 4 peer,
          [Event.send 4 (bytes "\r\nUnknown command: \r\n"),
            Event.send 4 (bytes "Type 'help' for available commands.\r\n")]) := by
  have hsp : ∀ line : List Nat, (∀ c ∈ line, c = 32) → ∀ c ∈ line, isspace c = true := by
    intro line h c hc
    rw [h c hc]; decide
  refine ⟨fun line stk _ h => sscanf_blank line stk (hsp line h), ?_, rfl⟩
  intro now ts stk client line r _ hline h
  unfold telnets_command_proc at h
  rw [sscanf_blank line stk (hsp line hline)] at h
  dsimp only at h
  rw [if_neg (by decide)] at h
  repeat' split at h
  all_goals first
    | (cases h; simp)
    | simp at h

/-! ## `max_fd` as an upper bound -/

set_option maxRecDepth 1000000 in
/-- The call on the chunk of 128 letters `a` and CR with the environment of `zero_stack`, whose
overrun does no harm: the line is answered as an unknown command and the record is left with
an empty line. -/
theorem recv_overlong_word_example :
    (telnets_recv_data_proc 101 [] zero_stack one_client_server 0
          (Recv.received (List.replicate 128 97 ++ [13]))).map
        (fun r => ((client_at r.server 0).map (fun c => c.buffer_len), r.events.drop 128)) =
      some (some 0, [Event.send 4 (bytes "\r\n"),
        Event.send 4 (bytes "\r\nUnknown command: " ++ List.replicate 128 97 ++ bytes "\r\n"),
        Event.send 4 help_hint]) := by
  rfl

/-! ## `max_fd` over the four operations -/

end Telnet
